import Mathlib

/-!
Shallow embedding of the transactional core of the isucon12f game backend
(`main.go`): shard routing, one-time-token consumption, the master-data
cache weight sum, reward grants (single and batched), present receipt,
the gacha draw pipeline, login-bonus progression and the card level-up
loop.  Go `int`/`int64` values are modelled as `Int` (no arithmetic here
depends on 64-bit wrap-around), nullable columns as `Option Int`, and
fallible store operations as `Except GameErr`.  Each definition mirrors
one Go function or method and keeps its name.
-/

namespace Isucon

/-- Error values of the Go source (`ErrInvalidItemType`, `ErrInvalidToken`,
`ErrUserNotFound`, `ErrItemNotFound`, ...) together with the handler-level
HTTP classifications that the claims mention (`conflict` for an
insufficient balance, `notFound` for a missing gacha/device, `internal`
for a misconfigured weight sum). -/
inductive GameErr where
  | invalidItemType
  | invalidToken
  | userNotFound
  | itemNotFound
  | deviceNotFound
  | gachaNotFound
  | conflict
  | badRequest
  | internal
  deriving Repr, DecidableEq

/-- Row of the `users` table (fields used by the core). -/
structure User where
  id : Int
  isuCoin : Int
  lastGetRewardAt : Int
  lastActivatedAt : Int
  registeredAt : Int
  createdAt : Int
  updatedAt : Int
  deletedAt : Option Int
  deriving Repr, DecidableEq

/-- Row of the `user_cards` table. -/
structure UserCard where
  id : Int
  userID : Int
  cardID : Int
  amountPerSec : Int
  level : Int
  totalExp : Int
  createdAt : Int
  updatedAt : Int
  deletedAt : Option Int
  deriving Repr, DecidableEq

/-- Row of the `user_items` table. -/
structure UserItem where
  id : Int
  userID : Int
  itemType : Int
  itemID : Int
  amount : Int
  createdAt : Int
  updatedAt : Int
  deletedAt : Option Int
  deriving Repr, DecidableEq

/-- Row of the `user_presents` table. -/
structure UserPresent where
  id : Int
  userID : Int
  sentAt : Int
  itemType : Int
  itemID : Int
  amount : Int
  presentMessage : String
  createdAt : Int
  updatedAt : Int
  deletedAt : Option Int
  deriving Repr, DecidableEq

/-- Row of the `item_masters` table; the nullable stat columns are the
Go pointer fields. -/
structure ItemMaster where
  id : Int
  itemType : Int
  name : String
  description : String
  amountPerSec : Option Int
  maxLevel : Option Int
  maxAmountPerSec : Option Int
  baseExpPerLevel : Option Int
  gainedExp : Option Int
  shorteningMin : Option Int
  deriving Repr, DecidableEq

/-- Row of the `gacha_masters` table. -/
structure GachaMaster where
  id : Int
  name : String
  startAt : Int
  endAt : Int
  displayOrder : Int
  createdAt : Int
  deriving Repr, DecidableEq

/-- Row of the `gacha_item_masters` table. -/
structure GachaItemMaster where
  id : Int
  gachaID : Int
  itemType : Int
  itemID : Int
  amount : Int
  weight : Int
  createdAt : Int
  deriving Repr, DecidableEq

/-- Row of the `user_devices` table (fields used by `checkViewerID`). -/
structure UserDevice where
  id : Int
  userID : Int
  platformID : String
  platformType : Int
  createdAt : Int
  updatedAt : Int
  deletedAt : Option Int
  deriving Repr, DecidableEq

/-- Row of the `user_one_time_tokens` table. -/
structure UserOneTimeToken where
  id : Int
  userID : Int
  token : String
  tokenType : Int
  expiredAt : Int
  createdAt : Int
  updatedAt : Int
  deletedAt : Option Int
  deriving Repr, DecidableEq

/-- In-process cached token record (`TokenInfo` in the source). -/
structure TokenInfo where
  userID : Int
  tokenType : Int
  expiredAt : Int
  createdAt : Int
  deriving Repr, DecidableEq

/-- Row of the `login_bonus_masters` table. -/
structure LoginBonusMaster where
  id : Int
  startAt : Int
  endAt : Int
  columnCount : Int
  looped : Bool
  createdAt : Int
  deriving Repr, DecidableEq

/-- Row of the `user_login_bonuses` table. -/
structure UserLoginBonus where
  id : Int
  userID : Int
  loginBonusID : Int
  lastRewardSequence : Int
  loopCount : Int
  createdAt : Int
  updatedAt : Int
  deletedAt : Option Int
  deriving Repr, DecidableEq

/-! ## ShardRouter: `getDBForUserID`

The source computes `int(userID>>23) % len(h.DBs)`.  The claims restrict
attention to non-negative identifiers, on which the arithmetic right
shift of an `int64` agrees with `Nat` shift, and Go's truncated `%`
agrees with `Nat.mod`, so the router is embedded over `Nat`. -/

/-- `getDBForUserID`: drop the low 23 bits of the user id (the snowflake
sequence component) and reduce modulo the number of shards.  The model
returns the selected index; the source indexes `h.DBs` with it. -/
def getDBForUserID (userID : Nat) (dbCount : Nat) : Nat :=
  (userID >>> 23) % dbCount

/-! ## TokenCache and `checkOneTimeToken`

The cache is a Go `map[string]*TokenInfo`: at most one binding per token
string; the model is an association list where `SetToken` would replace
and `DeleteToken` removes every binding of the key, and lookup takes the
first binding.  The store side is the `user_one_time_tokens` table; the
`UPDATE ... SET deleted_at=? WHERE token=?` statements mark every row
with that token string. -/

/-- `TokenCache.GetToken`. -/
def getToken (cache : List (String × TokenInfo)) (token : String) : Option TokenInfo :=
  (cache.find? (fun e => e.1 = token)).map (fun e => e.2)

/-- `TokenCache.DeleteToken`: removes the binding of `token` (a Go map
holds at most one; the model drops all). -/
def deleteToken (cache : List (String × TokenInfo)) (token : String) : List (String × TokenInfo) :=
  cache.filter (fun e => e.1 ≠ token)

/-- The store effect of `UPDATE user_one_time_tokens SET deleted_at=?
WHERE token=?`. -/
def dbDeleteToken (rows : List UserOneTimeToken) (token : String) (requestAt : Int) :
    List UserOneTimeToken :=
  rows.map (fun r => if r.token = token then { r with deletedAt := some requestAt } else r)

/-- Combined one-time-token state: the in-process cache plus the shard's
`user_one_time_tokens` rows. -/
structure TokenState where
  cache : List (String × TokenInfo)
  db : List UserOneTimeToken
  deriving Repr, DecidableEq

/-- `checkOneTimeToken`: cache-first lookup; on a cache hit a kind
mismatch fails without a write, an expired or valid token is deleted
from cache and store (valid consumes successfully); on a cache miss the
store row matching token, declared kind and `deleted_at IS NULL` is the
fallback, deleted on expiry or on successful consumption.  The `userID`
argument selects the shard in the source and is otherwise unused. -/
def checkOneTimeToken (ts : TokenState) (userID : Int) (token : String)
    (tokenType : Int) (requestAt : Int) : Except GameErr Unit × TokenState :=
  match getToken ts.cache token with
  | some info =>
    if info.tokenType ≠ tokenType then
      (.error .invalidToken, ts)
    else if info.expiredAt < requestAt then
      (.error .invalidToken,
        { cache := deleteToken ts.cache token, db := dbDeleteToken ts.db token requestAt })
    else
      (.ok (),
        { cache := deleteToken ts.cache token, db := dbDeleteToken ts.db token requestAt })
  | none =>
    match ts.db.find? (fun r => r.token = token ∧ r.tokenType = tokenType ∧ r.deletedAt = none) with
    | none => (.error .invalidToken, ts)
    | some tk =>
      if tk.expiredAt < requestAt then
        (.error .invalidToken, { ts with db := dbDeleteToken ts.db token requestAt })
      else
        (.ok (), { ts with db := dbDeleteToken ts.db token requestAt })

/-! ## The shard store

One shard's tables (plus the master tables that the handlers read), as a
record of row lists.  Every embedded operation is confined to one such
store, mirroring the one-shard-per-transaction design. -/

/-- One shard of the relational store together with the in-process token
state. -/
structure Store where
  users : List User
  cards : List UserCard
  items : List UserItem
  presents : List UserPresent
  tokens : TokenState
  devices : List UserDevice
  gachaMasters : List GachaMaster
  gachaItemMasters : List GachaItemMaster
  deriving Repr, DecidableEq

/-! ## RewardGrantEngine: `obtainItem` and `obtainItemsBatch`

ID generation (`h.generateID`, a snowflake node) is modelled by a
counter `nid` threaded through the computation; the source's generator
never returns an error.  The source dereferences `*master.AmountPerSec`
(non-null for card masters); the model reads it with default 0. -/

/-- `obtainItem`: single-item grant with the source's `switch` on the
item type; the `default` branch fails with `ErrInvalidItemType`.
Returns the obtained coins/cards/items, the updated store and the next
generator value. -/
def obtainItem (masters : List ItemMaster) (s : Store) (userID itemID : Int)
    (itemType : Int) (obtainAmount : Int) (requestAt : Int) (nid : Int) :
    Except GameErr (List Int × List UserCard × List UserItem × Store × Int) :=
  if itemType = 1 then
    match s.users.find? (fun u => u.id = userID) with
    | none => .error .userNotFound
    | some user =>
      let totalCoin := user.isuCoin + obtainAmount
      .ok ([obtainAmount], [], [],
        { s with users := s.users.map (fun u =>
            if u.id = user.id then { u with isuCoin := totalCoin } else u) }, nid)
  else if itemType = 2 then
    match masters.find? (fun m => m.id = itemID ∧ m.itemType = itemType) with
    | none => .error .itemNotFound
    | some item =>
      let card : UserCard :=
        { id := nid, userID := userID, cardID := item.id,
          amountPerSec := item.amountPerSec.getD 0, level := 1, totalExp := 0,
          createdAt := requestAt, updatedAt := requestAt, deletedAt := none }
      .ok ([], [card], [], { s with cards := s.cards ++ [card] }, nid + 1)
  else if itemType = 3 ∨ itemType = 4 then
    match masters.find? (fun m => m.id = itemID ∧ m.itemType = itemType) with
    | none => .error .itemNotFound
    | some item =>
      match s.items.find? (fun it => it.userID = userID ∧ it.itemID = item.id) with
      | none =>
        let uitem : UserItem :=
          { id := nid, userID := userID, itemType := item.itemType, itemID := item.id,
            amount := obtainAmount, createdAt := requestAt, updatedAt := requestAt,
            deletedAt := none }
        .ok ([], [], [uitem], { s with items := s.items ++ [uitem] }, nid + 1)
      | some uitem0 =>
        let uitem := { uitem0 with
          amount := uitem0.amount + obtainAmount,
          updatedAt := requestAt }
        .ok ([], [], [uitem],
          { s with items := s.items.map (fun it =>
              if it.id = uitem.id then
                { it with amount := uitem.amount, updatedAt := uitem.updatedAt }
              else it) }, nid)
  else .error .invalidItemType

/-- Grouping pass of `obtainItemsBatch`: total coin amount (item type 1). -/
def coinTotalOf (presents : List UserPresent) : Int :=
  presents.foldl (fun acc p => if p.itemType = 1 then acc + p.amount else acc) 0

/-- Grouping pass of `obtainItemsBatch`: the card presents (item type 2). -/
def cardItemsOf (presents : List UserPresent) : List UserPresent :=
  presents.filter (fun p => p.itemType = 2)

/-- One step of building the Go map `materialItems[item_id] += amount`,
as an association list keyed by item id (first-occurrence order stands
in for the map's arbitrary iteration order). -/
def addMaterial (m : List (Int × Int)) (itemID amount : Int) : List (Int × Int) :=
  match m with
  | [] => [(itemID, amount)]
  | kv :: rest =>
    if kv.1 = itemID then (kv.1, kv.2 + amount) :: rest
    else kv :: addMaterial rest itemID amount

/-- Grouping pass of `obtainItemsBatch`: per-item-id totals of the
material presents (item types 3 and 4). -/
def materialItemsOf (presents : List UserPresent) : List (Int × Int) :=
  presents.foldl
    (fun m p => if p.itemType = 3 ∨ p.itemType = 4 then addMaterial m p.itemID p.amount else m)
    []

/-- Card-master resolution of `obtainItemsBatch`: the item-master cache
is consulted first (by id alone); misses fall back to the store query
`SELECT * FROM item_masters WHERE id IN (?) AND item_type = 2`.  The
source also inserts the fetched rows into the cache, which does not
affect the store state of the call. -/
def resolveCardMaster (cache masters : List ItemMaster) (itemID : Int) : Option ItemMaster :=
  match cache.find? (fun m => m.id = itemID) with
  | some m => some m
  | none => masters.find? (fun m => m.id = itemID ∧ m.itemType = 2)

/-- Card expansion of `obtainItemsBatch`: each card present whose master
resolves is expanded into `amount` fresh `UserCard` rows; a missing
master fails the whole batch with `ErrItemNotFound`. -/
def expandCards (cache masters : List ItemMaster) (userID requestAt : Int) :
    List UserPresent → Int → Except GameErr (List UserCard × Int)
  | [], nid => .ok ([], nid)
  | item :: rest, nid =>
    match resolveCardMaster cache masters item.itemID with
    | none => .error .itemNotFound
    | some master =>
      let n := item.amount.toNat
      let newCards := (List.range n).map (fun i =>
        ({ id := nid + Int.ofNat i, userID := userID, cardID := master.id,
           amountPerSec := master.amountPerSec.getD 0, level := 1, totalExp := 0,
           createdAt := requestAt, updatedAt := requestAt,
           deletedAt := none } : UserCard))
      match expandCards cache masters userID requestAt rest (nid + (n : Int)) with
      | .error e => .error e
      | .ok (cs, nid2) => .ok (newCards ++ cs, nid2)

/-- Lookup in the Go map built from the selected `user_items` rows
(later rows overwrite earlier ones, so the last row with the item id
wins). -/
def lastItemFor (rows : List UserItem) (itemID : Int) : Option UserItem :=
  rows.foldl (fun acc it => if it.itemID = itemID then some it else acc) none

/-- Material-master lookup of `obtainItemsBatch`: the store query
`SELECT * FROM item_masters WHERE id IN (?) AND item_type IN (3, 4)`
(item-master ids are the table's primary key). -/
def findMaterialMaster (masters : List ItemMaster) (itemID : Int) : Option ItemMaster :=
  masters.find? (fun m => m.id = itemID ∧ (m.itemType = 3 ∨ m.itemType = 4))

/-- Material pass of `obtainItemsBatch`: walk the per-item-id totals,
failing on a missing master, and split into rows to update (existing
rows, amount increased by the total) and rows to insert (fresh rows
carrying the total). -/
def processMaterials (masters : List ItemMaster) (existing : List UserItem)
    (userID requestAt : Int) :
    List (Int × Int) → Int → Except GameErr (List UserItem × List UserItem × Int)
  | [], nid => .ok ([], [], nid)
  | kv :: rest, nid =>
    match findMaterialMaster masters kv.1 with
    | none => .error .itemNotFound
    | some master =>
      match lastItemFor existing kv.1 with
      | some ex =>
        match processMaterials masters existing userID requestAt rest nid with
        | .error e => .error e
        | .ok (upds, inss, nid2) =>
          .ok ({ ex with amount := ex.amount + kv.2, updatedAt := requestAt } :: upds,
               inss, nid2)
      | none =>
        match processMaterials masters existing userID requestAt rest (nid + 1) with
        | .error e => .error e
        | .ok (upds, inss, nid2) =>
          .ok (upds,
               ({ id := nid, userID := userID, itemType := master.itemType, itemID := kv.1,
                  amount := kv.2, createdAt := requestAt, updatedAt := requestAt,
                  deletedAt := none } : UserItem) :: inss, nid2)

/-- The batched `UPDATE user_items SET amount = CASE id ... END,
updated_at = CASE id ... END WHERE id IN (?)`: every row whose id is
named receives its new amount and timestamp. -/
def applyItemUpdates (items : List UserItem) (upds : List UserItem) : List UserItem :=
  items.map (fun it =>
    match upds.find? (fun u => u.id = it.id) with
    | some u => { it with amount := u.amount, updatedAt := u.updatedAt }
    | none => it)

/-- `obtainItemsBatch`: group the presents by item kind (a kind outside
1–4 matches no `case` of the source's `switch` and is dropped), then
apply the coin delta, insert the expanded cards, and update/insert the
merged material rows, in the source's order.  Go guards each phase with
a length check that only skips no-op statements. -/
def obtainItemsBatch (cache masters : List ItemMaster) (s : Store)
    (presents : List UserPresent) (userID requestAt : Int) (nid : Int) :
    Except GameErr Store :=
  let coinTotal := coinTotalOf presents
  let cardItems := cardItemsOf presents
  let mats := materialItemsOf presents
  let s1 := if 0 < coinTotal then
      { s with users := s.users.map (fun u =>
          if u.id = userID then { u with isuCoin := u.isuCoin + coinTotal } else u) }
    else s
  match expandCards cache masters userID requestAt cardItems nid with
  | .error e => .error e
  | .ok (newCards, nid1) =>
    let s2 := { s1 with cards := s1.cards ++ newCards }
    let itemIDs := mats.map (fun kv => kv.1)
    let existing := s2.items.filter (fun it => it.userID = userID ∧ it.itemID ∈ itemIDs)
    match processMaterials masters existing userID requestAt mats nid1 with
    | .error e => .error e
    | .ok (upds, inss, _) =>
      .ok { s2 with items := applyItemUpdates s2.items upds ++ inss }

/-- The enclosing shard transaction of a grant call: the new store on
commit, the caller's store unchanged when any sub-step fails (the
deferred rollback). -/
def applyGrantTx (cache masters : List ItemMaster) (s : Store)
    (presents : List UserPresent) (userID requestAt : Int) (nid : Int) : Store :=
  match obtainItemsBatch cache masters s presents userID requestAt nid with
  | .ok s2 => s2
  | .error _ => s

/-! ## PresentDistributionEngine: `receivePresent`

The handler body from the point where the validated user id, present id
list and request time are available.  The load query is
`SELECT * FROM user_presents WHERE id IN (?) AND deleted_at IS NULL`. -/

/-- `receivePresent`: load the named unreceived presents; an empty load
returns success with no write; a loaded present already marked received
aborts (a branch the load filter makes unreachable); otherwise mark all
loaded presents received in one batched update and grant them through
`obtainItemsBatch` in the same transaction. -/
def receivePresent (cache masters : List ItemMaster) (s : Store)
    (userID : Int) (presentIDs : List Int) (requestAt : Int) (nid : Int) :
    Except GameErr (List UserPresent) × Store :=
  let obtainPresent := s.presents.filter (fun p => p.id ∈ presentIDs ∧ p.deletedAt = none)
  if obtainPresent.isEmpty then
    (.ok [], s)
  else if obtainPresent.any (fun p => p.deletedAt ≠ none) then
    (.error .internal, s)
  else
    let marked := obtainPresent.map (fun p =>
      { p with updatedAt := requestAt, deletedAt := some requestAt })
    let loadedIDs := obtainPresent.map (fun p => p.id)
    let s1 := { s with presents := s.presents.map (fun p =>
        if p.id ∈ loadedIDs then { p with deletedAt := some requestAt, updatedAt := requestAt }
        else p) }
    match obtainItemsBatch cache masters s1 marked userID requestAt nid with
    | .error e => (.error e, s)
    | .ok s2 => (.ok marked, s2)

/-! ## MasterDataCache (gacha pools) and LotteryEngine -/

/-- The weight sum computed by `MasterDataCache.SetGachaItems` (and
recomputed by `drawGacha` on a cache miss): sum of the pool's item
weights. -/
def gachaWeightSum (items : List GachaItemMaster) : Int :=
  items.foldl (fun acc it => acc + (it.weight : Int)) 0

/-- One cached gacha pool: `SetGachaItems` stores the item list and its
weight sum under the gacha id. -/
structure GachaCacheEntry where
  gachaID : Int
  items : List GachaItemMaster
  weightSum : Int
  deriving Repr, DecidableEq

/-- `MasterDataCache.GetGachaItems`. -/
def getGachaItems (cache : List GachaCacheEntry) (gachaID : Int) :
    Option (List GachaItemMaster × Int) :=
  (cache.find? (fun e => e.gachaID = gachaID)).map (fun e => (e.items, e.weightSum))

/-- The inner selection loop of `drawGacha`: accumulate a running
boundary over the pool and pick the first item whose boundary exceeds
the sampled value. -/
def selectGachaItemAux (random : Int) : List GachaItemMaster → Int → Option GachaItemMaster
  | [], _ => none
  | v :: rest, boundary =>
    if random < boundary + v.weight then some v
    else selectGachaItemAux random rest (boundary + v.weight)

/-- One draw of the lottery: the selection loop started at boundary 0. -/
def selectGachaItem (items : List GachaItemMaster) (random : Int) : Option GachaItemMaster :=
  selectGachaItemAux random items 0

/-- The draw loop of `drawGacha`: `gachaCount` iterations, the `i`-th
sampling `randoms i` (the source calls `rand.Int63n(sum)` there, which
yields a value in `[0, sum)`). -/
def drawGachaResult (items : List GachaItemMaster) (gachaCount : Nat)
    (randoms : Nat → Int) : List GachaItemMaster :=
  (List.range gachaCount).filterMap (fun i => selectGachaItem items (randoms i))

/-- `drawGacha`: the handler body from the point where the validated
user id, gacha id, draw count, token, viewer id and request time are
available.  Steps in source order: draw-count check, one-time-token
consumption (type 1; its store write persists even if a later step
fails), viewer-device check, balance read and Conflict check, active
gacha lookup, pool fetch (cache first, store fallback with the
empty-pool check only on the miss path; the source's cache refill is a
cache-only effect), zero-weight-sum check, lottery, and one transaction
inserting the result presents and charging `1000 * count` coins. -/
def drawGacha (gachaCache : List GachaCacheEntry) (s : Store) (userID : Int)
    (gachaID : Int) (gachaCount : Int) (oneTimeToken viewerID : String)
    (requestAt : Int) (randoms : Nat → Int) (nid : Int) :
    Except GameErr (List UserPresent) × Store :=
  if gachaCount ≠ 1 ∧ gachaCount ≠ 10 then (.error .badRequest, s)
  else
    match checkOneTimeToken s.tokens userID oneTimeToken 1 requestAt with
    | (.error e, ts1) => (.error e, { s with tokens := ts1 })
    | (.ok _, ts1) =>
      let s1 := { s with tokens := ts1 }
      match s1.devices.find? (fun d => d.userID = userID ∧ d.platformID = viewerID) with
      | none => (.error .deviceNotFound, s1)
      | some _ =>
        let consumedCoin := gachaCount * 1000
        match s1.users.find? (fun u => u.id = userID) with
        | none => (.error .userNotFound, s1)
        | some user =>
          if user.isuCoin < consumedCoin then (.error .conflict, s1)
          else
            match s1.gachaMasters.find? (fun g =>
                g.id = gachaID ∧ g.startAt ≤ requestAt ∧ requestAt ≤ g.endAt) with
            | none => (.error .gachaNotFound, s1)
            | some gachaInfo =>
              let fetched : Except GameErr (List GachaItemMaster × Int) :=
                match getGachaItems gachaCache gachaID with
                | some itemsSum => .ok itemsSum
                | none =>
                  let items := s1.gachaItemMasters.filter (fun it => it.gachaID = gachaID)
                  if items.isEmpty then .error .gachaNotFound
                  else .ok (items, gachaWeightSum items)
              match fetched with
              | .error e => (.error e, s1)
              | .ok (gachaItemList, sum) =>
                if sum = 0 then (.error .internal, s1)
                else
                  let result := drawGachaResult gachaItemList gachaCount.toNat randoms
                  let presents := result.enum.map (fun iv =>
                    ({ id := nid + (iv.1 : Int), userID := userID, sentAt := requestAt,
                       itemType := iv.2.itemType, itemID := iv.2.itemID, amount := iv.2.amount,
                       presentMessage := gachaInfo.name ++ "の付与アイテムです",
                       createdAt := requestAt, updatedAt := requestAt,
                       deletedAt := none } : UserPresent))
                  let totalCoin := user.isuCoin - consumedCoin
                  (.ok presents,
                    { s1 with
                      presents := s1.presents ++ presents,
                      users := s1.users.map (fun u =>
                        if u.id = user.id then { u with isuCoin := totalCoin } else u) })

/-! ## LoginBonusEngine -/

/-- The `UserLoginBonus` initialized by `obtainLoginBonus` for a user
meeting a login bonus for the first time. -/
def initialUserLoginBonus (ubID userID : Int) (bonus : LoginBonusMaster)
    (requestAt : Int) : UserLoginBonus :=
  { id := ubID, userID := userID, loginBonusID := bonus.id, lastRewardSequence := 0,
    loopCount := 1, createdAt := requestAt, updatedAt := requestAt, deletedAt := none }

/-- The per-bonus progression step of `obtainLoginBonus` (one qualifying
login): advance the sequence while below the column count, else wrap to
sequence 1 and bump the loop count when the bonus loops, else skip
(`continue`) leaving the streak row unwritten. -/
def obtainLoginBonusStep (bonus : LoginBonusMaster) (userBonus : UserLoginBonus)
    (requestAt : Int) : Option UserLoginBonus :=
  if userBonus.lastRewardSequence < bonus.columnCount then
    some { userBonus with
      lastRewardSequence := userBonus.lastRewardSequence + 1,
      updatedAt := requestAt }
  else if bonus.looped then
    some { userBonus with
      loopCount := userBonus.loopCount + 1,
      lastRewardSequence := 1,
      updatedAt := requestAt }
  else none

/-! ## Card level-up loop of `addExpToCard`

The source computes
`nextLvThreshold := int(float64(card.BaseExpPerLevel) * math.Pow(1.2, float64(card.Level-1)))`
and levels up while the threshold does not exceed the accumulated
experience.  The threshold is modelled in exact arithmetic:
`⌊base * (6/5)^(level-1)⌋ = base * 6^(level-1) / 5^(level-1)` over `Nat`
(the claim's own formulation).  The loop body also recomputes the
production rate, which does not feed the loop guard. -/

/-- Exact-arithmetic `nextLvThreshold` of `addExpToCard`. -/
def nextLvThreshold (baseExpPerLevel level : Nat) : Nat :=
  baseExpPerLevel * 6 ^ (level - 1) / 5 ^ (level - 1)

/-- The level-up loop of `addExpToCard` on the level counter, with
explicit fuel: stops (`some level`) when the threshold strictly exceeds
the accumulated experience, else levels up; `none` when the fuel runs
out before the loop breaks. -/
def levelUpLoop (baseExpPerLevel totalExp : Nat) : Nat → Nat → Option Nat
  | 0, _ => none
  | fuel + 1, level =>
    if totalExp < nextLvThreshold baseExpPerLevel level then some level
    else levelUpLoop baseExpPerLevel totalExp fuel (level + 1)

/-! ## Derived observation functions used by the theorem statements -/

/-- The `user_items` rows of one (user, item id) pair. -/
def rowsFor (items : List UserItem) (userID itemID : Int) : List UserItem :=
  items.filter (fun it => it.userID = userID ∧ it.itemID = itemID)

/-- Total material amount held by a user for one item id. -/
def itemsAmountFor (items : List UserItem) (userID itemID : Int) : Int :=
  ((rowsFor items userID itemID).map (fun it => it.amount)).sum

/-- Spec-level total of the material amounts (kinds 3 and 4) granted for
one item id by a batch of presents. -/
def materialTotal (presents : List UserPresent) (itemID : Int) : Int :=
  ((presents.filter (fun p => (p.itemType = 3 ∨ p.itemType = 4) ∧ p.itemID = itemID)).map
    (fun p => p.amount)).sum

/-- Lookup in the per-item-id material totals. -/
def lookupMat (mats : List (Int × Int)) (k : Int) : Option Int :=
  (mats.find? (fun kv => kv.1 = k)).map (fun kv => kv.2)

/-- Lookup in the per-item-id material totals, defaulting to 0. -/
def lookupMatD (mats : List (Int × Int)) (k : Int) : Int :=
  (lookupMat mats k).getD 0

/-- Spec-level number of card rows a batch of presents expands to. -/
def cardCountOf (presents : List UserPresent) : Nat :=
  ((cardItemsOf presents).map (fun p => p.amount.toNat)).sum

/-- Cumulative weight boundary after the first `n` pool items — the
running `boundary` of the selection loop. -/
def cumWeight (items : List GachaItemMaster) (n : Nat) : Int :=
  gachaWeightSum (items.take n)

/-- The item kinds the grant engine knows (coin, card, the two material
kinds). -/
def knownItemKind (p : UserPresent) : Prop :=
  p.itemType = 1 ∨ p.itemType = 2 ∨ p.itemType = 3 ∨ p.itemType = 4

instance (p : UserPresent) : Decidable (knownItemKind p) := by
  unfold knownItemKind
  infer_instance

/-- A minimal one-user store used by concrete counterexamples and
witnesses. -/
def storeA : Store :=
  { users := [⟨1, 0, 0, 0, 0, 0, 0, none⟩], cards := [], items := [], presents := [],
    tokens := ⟨[], []⟩, devices := [], gachaMasters := [], gachaItemMasters := [] }

/-- Store with one already-received present (id 1) and one pending
present (id 2), both coin presents of the single user. -/
def storeC3 : Store :=
  { users := [⟨1, 0, 0, 0, 0, 0, 0, none⟩], cards := [], items := [],
    presents := [⟨1, 1, 0, 1, 0, 100, "m", 0, 0, some 5⟩, ⟨2, 1, 0, 1, 0, 50, "m", 0, 0, none⟩],
    tokens := ⟨[], []⟩, devices := [], gachaMasters := [], gachaItemMasters := [] }

/-- Store for the draw flow: user with balance 5000, one valid draw
token (kind 1) in the token table, a registered device, an active gacha
with one pool item. -/
def storeC2 : Store :=
  { users := [⟨1, 5000, 0, 0, 0, 0, 0, none⟩], cards := [], items := [], presents := [],
    tokens := ⟨[], [⟨1, 1, "drawTok", 1, 100, 0, 0, none⟩]⟩,
    devices := [⟨1, 1, "viewer1", 1, 0, 0, none⟩],
    gachaMasters := [⟨1, "g", 0, 100, 1, 0⟩],
    gachaItemMasters := [⟨1, 1, 1, 10, 1, 1, 0⟩] }

/-- Item masters for the mixed-batch fixtures: card master 20 and
material master 7. -/
def mastersC1 : List ItemMaster :=
  [⟨20, 2, "c", "d", some 5, some 10, some 50, some 10, none, none⟩,
   ⟨7, 3, "m", "d", none, none, none, none, some 3, none⟩]

/-- Store for the mixed-batch fixtures: one user with no coins, no
cards, and one existing material row for item 7 (amount 1). -/
def storeC1 : Store :=
  { users := [⟨1, 0, 0, 0, 0, 0, 0, none⟩], cards := [],
    items := [⟨100, 1, 3, 7, 1, 0, 0, none⟩], presents := [],
    tokens := ⟨[], []⟩, devices := [], gachaMasters := [], gachaItemMasters := [] }

/-- A mixed batch: 100 coins, 2 copies of card 20, and material 7
granted twice with amount 2 each. -/
def presentsC1 : List UserPresent :=
  [⟨11, 1, 0, 1, 0, 100, "w", 0, 0, none⟩,
   ⟨12, 1, 0, 2, 20, 2, "w", 0, 0, none⟩,
   ⟨13, 1, 0, 3, 7, 2, "w", 0, 0, none⟩,
   ⟨14, 1, 0, 3, 7, 2, "w", 0, 0, none⟩]

/-! ## Theorems -/

/-- C7: for every non-negative user identifier and shard count N ≥ 1,
`getDBForUserID` returns a partition index in `[0, N)`; being a pure
function of its arguments it is deterministic and stateless; with N = 1
it returns the single partition 0 for every user. -/
theorem getDBForUserID_in_range (userID n : Nat) (hn : 1 ≤ n) :
    getDBForUserID userID n < n ∧ getDBForUserID userID 1 = 0 := by
  constructor
  · exact Nat.mod_lt _ hn
  · simp [getDBForUserID, Nat.mod_one]

/-- Witness for C7 at userID 123456789012 and N = 4. -/
theorem getDBForUserID_in_range_witness :
    getDBForUserID 123456789012 4 < 4 ∧ getDBForUserID 123456789012 1 = 0 :=
  getDBForUserID_in_range 123456789012 4 (by decide)

/-- C8: a login bonus with columnCount 3 and looped true, for a user
starting at last reward sequence 0 (loop count 1, the initialization
value), grants reward sequences 1, 2, 3, 1 over four qualifying logins,
the loop count becoming 2 on the fourth; and a non-looping bonus whose
last granted sequence has reached its column count yields no step (the
source `continue`s, leaving the streak row unwritten and granting no
reward). -/
theorem obtainLoginBonus_progression
    (bonus : LoginBonusMaster) (ub : UserLoginBonus)
    (hcc : bonus.columnCount = 3) (hloop : bonus.looped = true)
    (hseq : ub.lastRewardSequence = 0) (hlc : ub.loopCount = 1)
    (t1 t2 t3 t4 : Int)
    (bonus2 : LoginBonusMaster) (ub2 : UserLoginBonus) (t5 : Int)
    (hnl : bonus2.looped = false) (hfull : bonus2.columnCount ≤ ub2.lastRewardSequence) :
    (∃ u1 u2 u3 u4,
      obtainLoginBonusStep bonus ub t1 = some u1 ∧
        u1.lastRewardSequence = 1 ∧ u1.loopCount = 1 ∧
      obtainLoginBonusStep bonus u1 t2 = some u2 ∧
        u2.lastRewardSequence = 2 ∧ u2.loopCount = 1 ∧
      obtainLoginBonusStep bonus u2 t3 = some u3 ∧
        u3.lastRewardSequence = 3 ∧ u3.loopCount = 1 ∧
      obtainLoginBonusStep bonus u3 t4 = some u4 ∧
        u4.lastRewardSequence = 1 ∧ u4.loopCount = 2) ∧
    obtainLoginBonusStep bonus2 ub2 t5 = none := by
  constructor
  · obtain ⟨bid, bsa, bea, bcc, blo, bca⟩ := bonus
    obtain ⟨uid, uuid, lbid, useq, ulc, uca, uua, uda⟩ := ub
    simp only at hcc hloop hseq hlc
    subst hcc hloop hseq hlc
    exact ⟨_, _, _, _, rfl, rfl, rfl, rfl, rfl, rfl, rfl, rfl, rfl, rfl, rfl, rfl⟩
  · rw [obtainLoginBonusStep, if_neg (not_lt.mpr hfull)]
    simp [hnl]

/-- Witness for C8 at a concrete bonus (columnCount 3, looped) and a
fresh streak row, plus a concrete exhausted non-looping bonus. -/
theorem obtainLoginBonus_progression_witness :
    (∃ u1 u2 u3 u4,
      obtainLoginBonusStep ⟨1, 0, 100, 3, true, 0⟩ ⟨10, 5, 1, 0, 1, 0, 0, none⟩ 1 = some u1 ∧
        u1.lastRewardSequence = 1 ∧ u1.loopCount = 1 ∧
      obtainLoginBonusStep ⟨1, 0, 100, 3, true, 0⟩ u1 2 = some u2 ∧
        u2.lastRewardSequence = 2 ∧ u2.loopCount = 1 ∧
      obtainLoginBonusStep ⟨1, 0, 100, 3, true, 0⟩ u2 3 = some u3 ∧
        u3.lastRewardSequence = 3 ∧ u3.loopCount = 1 ∧
      obtainLoginBonusStep ⟨1, 0, 100, 3, true, 0⟩ u3 4 = some u4 ∧
        u4.lastRewardSequence = 1 ∧ u4.loopCount = 2) ∧
    obtainLoginBonusStep ⟨2, 0, 100, 5, false, 0⟩ ⟨11, 5, 2, 5, 1, 0, 0, none⟩ 9 = none :=
  obtainLoginBonus_progression ⟨1, 0, 100, 3, true, 0⟩ ⟨10, 5, 1, 0, 1, 0, 0, none⟩
    rfl rfl rfl rfl 1 2 3 4 ⟨2, 0, 100, 5, false, 0⟩ ⟨11, 5, 2, 5, 1, 0, 0, none⟩ 9
    rfl (by decide)

/-- Bernoulli-style growth bound feeding the level-up termination
argument: `5^k * (5 + k) ≤ 5 * 6^k`. -/
theorem pow_five_six_bound (k : Nat) : 5 ^ k * (5 + k) ≤ 5 * 6 ^ k := by
  induction k with
  | zero => decide
  | succ n ih =>
    calc 5 ^ (n + 1) * (5 + (n + 1)) = 5 ^ n * (5 * (6 + n)) := by ring
    _ ≤ 5 ^ n * (6 * (5 + n)) := Nat.mul_le_mul_left _ (by omega)
    _ = 6 * (5 ^ n * (5 + n)) := by ring
    _ ≤ 6 * (5 * 6 ^ n) := Nat.mul_le_mul_left _ ih
    _ = 5 * 6 ^ (n + 1) := by ring

/-- Once the level counter passes `5 * totalExp`, the exact threshold
exceeds the accumulated experience. -/
theorem nextLvThreshold_exceeds (base totalExp level : Nat)
    (hb : 1 ≤ base) (hl : 5 * totalExp + 1 ≤ level) :
    totalExp < nextLvThreshold base level := by
  have hk : 5 * totalExp ≤ level - 1 := by omega
  have h5 : 0 < 5 ^ (level - 1) := Nat.pos_pow_of_pos _ (by decide)
  have hbound : 5 ^ (level - 1) * (5 * (totalExp + 1)) ≤ 5 * 6 ^ (level - 1) := by
    calc 5 ^ (level - 1) * (5 * (totalExp + 1)) ≤ 5 ^ (level - 1) * (5 + (level - 1)) := by
          exact Nat.mul_le_mul_left _ (by omega)
    _ ≤ 5 * 6 ^ (level - 1) := pow_five_six_bound _
  have hmain : 5 ^ (level - 1) * (totalExp + 1) ≤ 6 ^ (level - 1) := by
    have hb5 : 5 * (5 ^ (level - 1) * (totalExp + 1)) ≤ 5 * 6 ^ (level - 1) := by
      calc 5 * (5 ^ (level - 1) * (totalExp + 1))
          = 5 ^ (level - 1) * (5 * (totalExp + 1)) := by ring
      _ ≤ 5 * 6 ^ (level - 1) := hbound
    exact Nat.le_of_mul_le_mul_left hb5 (by decide)
  have hfin : 5 ^ (level - 1) * (totalExp + 1) ≤ base * 6 ^ (level - 1) :=
    le_trans hmain (Nat.le_mul_of_pos_left _ hb)
  have : totalExp + 1 ≤ base * 6 ^ (level - 1) / 5 ^ (level - 1) := by
    rw [Nat.le_div_iff_mul_le h5]
    calc (totalExp + 1) * 5 ^ (level - 1) = 5 ^ (level - 1) * (totalExp + 1) := by ring
    _ ≤ base * 6 ^ (level - 1) := hfin
  unfold nextLvThreshold
  omega

/-- The fueled loop stops once some level within the fuel budget breaks
the guard. -/
theorem levelUpLoop_stops (base totalExp : Nat) :
    ∀ (d level : Nat), totalExp < nextLvThreshold base (level + d) →
      ∃ lvl, levelUpLoop base totalExp (d + 1) level = some lvl ∧
        totalExp < nextLvThreshold base lvl := by
  intro d
  induction d with
  | zero =>
    intro level h
    rw [Nat.add_zero] at h
    exact ⟨level, by rw [levelUpLoop, if_pos h], h⟩
  | succ n ih =>
    intro level h
    by_cases h0 : totalExp < nextLvThreshold base level
    · exact ⟨level, by rw [levelUpLoop, if_pos h0], h0⟩
    · have h2 : totalExp < nextLvThreshold base (level + 1 + n) := by
        have : level + 1 + n = level + (n + 1) := by omega
        rw [this]
        exact h
      obtain ⟨lvl, hloop, hthr⟩ := ih (level + 1) h2
      exact ⟨lvl, by rw [levelUpLoop, if_neg h0]; exact hloop, hthr⟩

/-- C10: for every card with `BaseExpPerLevel ≥ 1` and `Level ≥ 1`, the
level-up loop of `addExpToCard` terminates — after finitely many level
increments (within an explicit fuel budget) the exact threshold
`⌊base * 1.2^(level-1)⌋` strictly exceeds the accumulated experience. -/
theorem addExpToCard_levelUp_terminates (base totalExp level : Nat)
    (hb : 1 ≤ base) (hl : 1 ≤ level) :
    ∃ fuel lvl, levelUpLoop base totalExp fuel level = some lvl ∧
      totalExp < nextLvThreshold base lvl := by
  have hd : totalExp < nextLvThreshold base (level + (5 * totalExp + 1)) :=
    nextLvThreshold_exceeds base totalExp _ hb (by omega)
  obtain ⟨lvl, hloop, hthr⟩ := levelUpLoop_stops base totalExp (5 * totalExp + 1) level hd
  exact ⟨5 * totalExp + 1 + 1, lvl, hloop, hthr⟩

/-- Witness for C10 at base experience 7, accumulated experience 1000,
starting level 1. -/
theorem addExpToCard_levelUp_terminates_witness :
    ∃ fuel lvl, levelUpLoop 7 1000 fuel 1 = some lvl ∧
      1000 < nextLvThreshold 7 lvl :=
  addExpToCard_levelUp_terminates 7 1000 1 (by decide) (by decide)

/-- Dropping unknown-kind presents does not change the summed coin
total (only kind 1 feeds it). -/
theorem coinTotalOf_filter_known (l : List UserPresent) :
    coinTotalOf (l.filter (fun p => decide (knownItemKind p))) = coinTotalOf l := by
  unfold coinTotalOf
  suffices h : ∀ (l : List UserPresent) (acc : Int),
      (l.filter (fun p => decide (knownItemKind p))).foldl
        (fun acc p => if p.itemType = 1 then acc + p.amount else acc) acc
      = l.foldl (fun acc p => if p.itemType = 1 then acc + p.amount else acc) acc from
    h l 0
  intro l
  induction l with
  | nil => intro acc; rfl
  | cons p rest ih =>
    intro acc
    by_cases hk : knownItemKind p
    · simp only [List.filter_cons, decide_eq_true hk, List.foldl_cons]
      exact ih _
    · have hne : ¬ p.itemType = 1 := fun h => hk (Or.inl h)
      simp only [List.filter_cons, decide_eq_false hk, List.foldl_cons, if_neg hne]
      exact ih _

/-- Dropping unknown-kind presents does not change the card presents
(only kind 2 feeds them). -/
theorem cardItemsOf_filter_known (l : List UserPresent) :
    cardItemsOf (l.filter (fun p => decide (knownItemKind p))) = cardItemsOf l := by
  unfold cardItemsOf
  induction l with
  | nil => rfl
  | cons p rest ih =>
    by_cases hk : knownItemKind p
    · simp [List.filter_cons, hk, ih]
    · have hne : ¬ p.itemType = 2 := fun h => hk (Or.inr (Or.inl h))
      simp [List.filter_cons, hk, hne, ih]

/-- Dropping unknown-kind presents does not change the per-item material
totals (only kinds 3 and 4 feed them). -/
theorem materialItemsOf_filter_known (l : List UserPresent) :
    materialItemsOf (l.filter (fun p => decide (knownItemKind p))) = materialItemsOf l := by
  unfold materialItemsOf
  suffices h : ∀ (l : List UserPresent) (m : List (Int × Int)),
      (l.filter (fun p => decide (knownItemKind p))).foldl
        (fun m p => if p.itemType = 3 ∨ p.itemType = 4 then addMaterial m p.itemID p.amount else m) m
      = l.foldl
        (fun m p => if p.itemType = 3 ∨ p.itemType = 4 then addMaterial m p.itemID p.amount else m) m from
    h l []
  intro l
  induction l with
  | nil => intro m; rfl
  | cons p rest ih =>
    intro m
    by_cases hk : knownItemKind p
    · simp only [List.filter_cons, decide_eq_true hk, List.foldl_cons]
      exact ih _
    · have hne : ¬ (p.itemType = 3 ∨ p.itemType = 4) := fun h =>
        hk (h.elim (fun h3 => Or.inr (Or.inr (Or.inl h3))) (fun h4 => Or.inr (Or.inr (Or.inr h4))))
      simp only [List.filter_cons, decide_eq_false hk, List.foldl_cons, if_neg hne]
      exact ih _

/-- C4 counterexample: a batch holding an unknown-kind entry (item type
9) next to a coin entry does not fail with the invalid-item-type error —
it succeeds and applies the coin entry, refuting the claim that such a
batch fails whole. -/
theorem obtainItemsBatch_unknown_kind_counterexample :
    obtainItemsBatch [] [] storeA
        [⟨5, 1, 0, 9, 99, 1, "x", 0, 0, none⟩, ⟨6, 1, 0, 1, 0, 100, "x", 0, 0, none⟩]
        1 10 1000
      ≠ .error .invalidItemType
    ∧ obtainItemsBatch [] [] storeA
        [⟨5, 1, 0, 9, 99, 1, "x", 0, 0, none⟩, ⟨6, 1, 0, 1, 0, 100, "x", 0, 0, none⟩]
        1 10 1000
      = .ok { storeA with users := [⟨1, 100, 0, 0, 0, 0, 0, none⟩] } := by
  have h : obtainItemsBatch [] [] storeA
      [⟨5, 1, 0, 9, 99, 1, "x", 0, 0, none⟩, ⟨6, 1, 0, 1, 0, 100, "x", 0, 0, none⟩]
      1 10 1000
      = .ok { storeA with users := [⟨1, 100, 0, 0, 0, 0, 0, none⟩] } := by rfl
  refine ⟨?_, h⟩
  rw [h]
  exact fun hc => Except.noConfusion hc

/-- C4 amended: the batch grant silently ignores entries of unknown item
kind — the call behaves exactly as if those entries were absent, and the
known-kind entries are applied; only the single-item grant path
(`obtainItem`) rejects an unknown kind with the invalid-item-type
error. -/
theorem obtainItemsBatch_ignores_unknown_kinds
    (cache masters : List ItemMaster) (s : Store) (presents : List UserPresent)
    (userID requestAt nid : Int) (s2 : Store) (itemID ity amt t2 nid2 : Int)
    (h1 : ity ≠ 1) (h2 : ity ≠ 2) (h3 : ity ≠ 3) (h4 : ity ≠ 4) :
    obtainItemsBatch cache masters s presents userID requestAt nid
      = obtainItemsBatch cache masters s (presents.filter (fun p => decide (knownItemKind p)))
          userID requestAt nid
    ∧ obtainItem masters s2 userID itemID ity amt t2 nid2 = .error .invalidItemType := by
  constructor
  · unfold obtainItemsBatch
    rw [coinTotalOf_filter_known, cardItemsOf_filter_known, materialItemsOf_filter_known]
  · unfold obtainItem
    rw [if_neg h1, if_neg h2, if_neg (by simp [h3, h4])]

/-- Witness for C4's amended statement at a concrete batch and the
unknown kind 9. -/
theorem obtainItemsBatch_ignores_unknown_kinds_witness :
    obtainItemsBatch [] [] storeA
        [⟨5, 1, 0, 9, 99, 1, "x", 0, 0, none⟩, ⟨6, 1, 0, 1, 0, 100, "x", 0, 0, none⟩] 1 10 1000
      = obtainItemsBatch [] [] storeA
          ([⟨5, 1, 0, 9, 99, 1, "x", 0, 0, none⟩,
            ⟨6, 1, 0, 1, 0, 100, "x", 0, 0, none⟩].filter (fun p => decide (knownItemKind p)))
          1 10 1000
    ∧ obtainItem [] storeA 1 99 9 1 10 2000 = .error .invalidItemType :=
  obtainItemsBatch_ignores_unknown_kinds [] [] storeA
    [⟨5, 1, 0, 9, 99, 1, "x", 0, 0, none⟩, ⟨6, 1, 0, 1, 0, 100, "x", 0, 0, none⟩]
    1 10 1000 storeA 99 9 1 10 2000 (by decide) (by decide) (by decide) (by decide)

/-- After `DeleteToken`, the cache lookup of the token misses. -/
theorem getToken_deleteToken (cache : List (String × TokenInfo)) (token : String) :
    getToken (deleteToken cache token) token = none := by
  unfold getToken deleteToken
  rw [List.find?_eq_none.mpr]
  · rfl
  · intro e he
    rw [List.mem_filter] at he
    simpa using he.2

/-- After the store-side token deletion, no row with the token passes
the `deleted_at IS NULL` filter, whatever declared kind is probed. -/
theorem dbDeleteToken_find_none (rows : List UserOneTimeToken) (token : String)
    (requestAt : Int) (ty : Int) :
    (dbDeleteToken rows token requestAt).find?
        (fun r => r.token = token ∧ r.tokenType = ty ∧ r.deletedAt = none) = none := by
  apply List.find?_eq_none.mpr
  intro r hr
  unfold dbDeleteToken at hr
  rw [List.mem_map] at hr
  obtain ⟨r0, _, rfl⟩ := hr
  by_cases h : r0.token = token
  · simp [h]
  · simp [h]

/-- C5: a one-time token that has been successfully consumed fails every
later consumption attempt with the same token string (any declared kind,
any later time) with the invalid-token error; and an attempt whose
declared kind differs from the kind the token was issued with fails with
the invalid-token error leaving the token state untouched — it is never
successfully consumed under the wrong kind. -/
theorem checkOneTimeToken_single_use (ts ts1 : TokenState) (token : String)
    (uid kind t uidA kindA tA uidB kindB tB : Int)
    (hsucc : checkOneTimeToken ts uid token kind t = (.ok (), ts1))
    (hcache : ∀ info, getToken ts.cache token = some info → info.tokenType = kind)
    (hdb : ∀ r ∈ ts.db, r.token = token → r.tokenType = kind)
    (hkB : kindB ≠ kind) :
    (checkOneTimeToken ts1 uidA token kindA tA).1 = .error .invalidToken
    ∧ checkOneTimeToken ts uidB token kindB tB = (.error .invalidToken, ts) := by
  constructor
  · unfold checkOneTimeToken at hsucc ⊢
    rcases hct : getToken ts.cache token with _ | info
    · simp only [hct] at hsucc
      rcases hdf : ts.db.find?
          (fun r => r.token = token ∧ r.tokenType = kind ∧ r.deletedAt = none) with _ | tk
      · simp only [hdf] at hsucc
        simp at hsucc
      · simp only [hdf] at hsucc
        by_cases hexp : tk.expiredAt < t
        · simp only [if_pos hexp] at hsucc
          simp at hsucc
        · simp only [if_neg hexp] at hsucc
          have hts1 : ts1 = { cache := ts.cache, db := dbDeleteToken ts.db token t } := by
            have h2 := congrArg Prod.snd hsucc
            simpa using h2.symm
          subst hts1
          simp only [hct]
          rw [dbDeleteToken_find_none]
    · simp only [hct] at hsucc
      by_cases hty : info.tokenType ≠ kind
      · simp only [if_pos hty] at hsucc
        simp at hsucc
      · simp only [if_neg hty] at hsucc
        by_cases hexp : info.expiredAt < t
        · simp only [if_pos hexp] at hsucc
          simp at hsucc
        · simp only [if_neg hexp] at hsucc
          have hts1 : ts1 =
              { cache := deleteToken ts.cache token, db := dbDeleteToken ts.db token t } := by
            have h2 := congrArg Prod.snd hsucc
            simpa using h2.symm
          subst hts1
          simp only [getToken_deleteToken]
          rw [dbDeleteToken_find_none]
  · unfold checkOneTimeToken
    rcases hct : getToken ts.cache token with _ | info
    · have hnone : ts.db.find?
          (fun r => r.token = token ∧ r.tokenType = kindB ∧ r.deletedAt = none) = none := by
        apply List.find?_eq_none.mpr
        intro r hr hcontra
        rw [decide_eq_true_eq] at hcontra
        obtain ⟨h1, h2, _⟩ := hcontra
        exact hkB (h2.symm.trans (hdb r hr h1))
      rw [hnone]
    · have hty : info.tokenType = kind := hcache info hct
      dsimp only
      rw [if_pos (show info.tokenType ≠ kindB by rw [hty]; exact Ne.symm hkB)]

/-- Witness for C5: the token "tok" of kind 1, present only in the
store, is consumed at time 10; a kind-5 attempt at time 20 on the
resulting state and a kind-2 attempt on the original state both fail. -/
theorem checkOneTimeToken_single_use_witness :
    (checkOneTimeToken ⟨[], [⟨1, 7, "tok", 1, 100, 0, 0, some 10⟩]⟩ 8 "tok" 5 20).1
        = .error .invalidToken
    ∧ checkOneTimeToken ⟨[], [⟨1, 7, "tok", 1, 100, 0, 0, none⟩]⟩ 9 "tok" 2 30
        = (.error .invalidToken, ⟨[], [⟨1, 7, "tok", 1, 100, 0, 0, none⟩]⟩) :=
  checkOneTimeToken_single_use ⟨[], [⟨1, 7, "tok", 1, 100, 0, 0, none⟩]⟩
    ⟨[], [⟨1, 7, "tok", 1, 100, 0, 0, some 10⟩]⟩ "tok" 7 1 10 8 5 20 9 2 30
    rfl (by intro info h; simp [getToken] at h) (by decide) (by decide)

/-- The `SetGachaItems` weight sum is the sum of the item weights. -/
theorem gachaWeightSum_eq_sum (items : List GachaItemMaster) :
    gachaWeightSum items = (items.map (fun it => (it.weight : Int))).sum := by
  unfold gachaWeightSum
  suffices h : ∀ (l : List GachaItemMaster) (a : Int),
      l.foldl (fun acc it => acc + (it.weight : Int)) a = a + (l.map (fun it => (it.weight : Int))).sum by
    simpa using h items 0
  intro l
  induction l with
  | nil => intro a; simp
  | cons v rest ih =>
    intro a
    simp [ih, add_assoc]

/-- Unfolding the cumulative boundary past the pool head. -/
theorem cumWeight_cons_succ (v : GachaItemMaster) (rest : List GachaItemMaster) (n : Nat) :
    cumWeight (v :: rest) (n + 1) = (v.weight : Int) + cumWeight rest n := by
  simp [cumWeight, gachaWeightSum_eq_sum, List.take_succ_cons]

/-- Characterization of the selection loop from an arbitrary running
boundary: within range it returns the first item whose cumulative
boundary strictly exceeds the sampled value. -/
theorem selectGachaItemAux_spec (r : Int) :
    ∀ (items : List GachaItemMaster) (b : Int), b ≤ r → r < b + gachaWeightSum items →
      ∃ i, ∃ hi : i < items.length,
        selectGachaItemAux r items b = some (items.get ⟨i, hi⟩) ∧
        r < b + cumWeight items (i + 1) ∧
        ∀ j, j < i → b + cumWeight items (j + 1) ≤ r := by
  intro items
  induction items with
  | nil =>
    intro b hb h
    exfalso
    have h0 : gachaWeightSum [] = 0 := rfl
    omega
  | cons v rest ih =>
    intro b hb h
    by_cases hc : r < b + v.weight
    · refine ⟨0, Nat.succ_pos _, ?_, ?_, ?_⟩
      · simp [selectGachaItemAux, hc]
      · have hc1 := cumWeight_cons_succ v rest 0
        have h0 : cumWeight rest 0 = 0 := rfl
        omega
      · intro j hj
        omega
    · have hb2 : b + (v.weight : Int) ≤ r := not_lt.mp hc
      have hsum : gachaWeightSum (v :: rest) = (v.weight : Int) + gachaWeightSum rest := by
        simp [gachaWeightSum_eq_sum]
      have h2 : r < (b + v.weight) + gachaWeightSum rest := by omega
      obtain ⟨i, hi, hsel, hlt, hfirst⟩ := ih (b + v.weight) hb2 h2
      refine ⟨i + 1, Nat.succ_lt_succ hi, ?_, ?_, ?_⟩
      · simpa [selectGachaItemAux, hc] using hsel
      · have hc2 := cumWeight_cons_succ v rest (i + 1)
        omega
      · intro j hj
        cases j with
        | zero =>
          have hc1 := cumWeight_cons_succ v rest 0
          have h0 : cumWeight rest 0 = 0 := rfl
          omega
        | succ j2 =>
          have hc2 := cumWeight_cons_succ v rest (j2 + 1)
          have hf := hfirst j2 (Nat.lt_of_succ_lt_succ hj)
          omega

/-- A draw whose sampled value is in range always selects an item. -/
theorem selectGachaItem_isSome (items : List GachaItemMaster) (r : Int)
    (h0 : 0 ≤ r) (h : r < gachaWeightSum items) : (selectGachaItem items r).isSome := by
  obtain ⟨i, hi, hsel, _, _⟩ := selectGachaItemAux_spec r items 0 h0 (by omega)
  simp [selectGachaItem, hsel]

/-- `filterMap` over a function that always produces a value keeps the
length. -/
theorem filterMap_length_of_isSome {α β : Type} (f : α → Option β) :
    ∀ (l : List α), (∀ x ∈ l, (f x).isSome) → (l.filterMap f).length = l.length := by
  intro l
  induction l with
  | nil => intro _; rfl
  | cons x rest ih =>
    intro h
    have hx := h x (List.mem_cons_self x rest)
    rcases hfx : f x with _ | y
    · rw [hfx] at hx
      simp at hx
    · simp only [List.filterMap_cons, hfx, List.length_cons]
      rw [ih (fun z hz => h z (List.mem_cons_of_mem x hz))]

/-- C6: over a pool with positive total weight, a draw whose sampled
value `r` lies in `[0, weightSum)` selects exactly the first item in
catalog order whose cumulative weight boundary strictly exceeds `r`,
and a draw of count 1 or 10 whose sampled values are all in range
produces exactly `count` items. -/
theorem drawGacha_selection (items : List GachaItemMaster) (r : Int) (count : Nat)
    (randoms : Nat → Int)
    (hpos : 0 < gachaWeightSum items)
    (hr0 : 0 ≤ r) (hr : r < gachaWeightSum items)
    (hcount : count = 1 ∨ count = 10)
    (hrand : ∀ i, i < count → 0 ≤ randoms i ∧ randoms i < gachaWeightSum items) :
    (∃ i, ∃ hi : i < items.length,
      selectGachaItem items r = some (items.get ⟨i, hi⟩) ∧
      r < cumWeight items (i + 1) ∧
      ∀ j, j < i → cumWeight items (j + 1) ≤ r)
    ∧ (drawGachaResult items count randoms).length = count := by
  constructor
  · obtain ⟨i, hi, hsel, hlt, hfirst⟩ := selectGachaItemAux_spec r items 0 hr0 (by omega)
    refine ⟨i, hi, hsel, by omega, ?_⟩
    intro j hj
    have hf := hfirst j hj
    omega
  · unfold drawGachaResult
    have hall : ∀ x ∈ List.range count, (selectGachaItem items (randoms x)).isSome := by
      intro x hx
      rw [List.mem_range] at hx
      obtain ⟨ha, hb⟩ := hrand x hx
      exact selectGachaItem_isSome items (randoms x) ha hb
    rw [filterMap_length_of_isSome _ _ hall, List.length_range]

/-- Witness for C6 on a two-item pool with weights 1 and 3 (sum 4),
sampled value 1 and a 10-draw whose samples cycle through 0–3. -/
theorem drawGacha_selection_witness :
    (∃ i, ∃ hi : i <
        ([⟨1, 1, 1, 10, 1, 1, 0⟩, ⟨2, 1, 2, 20, 1, 3, 0⟩] : List GachaItemMaster).length,
      selectGachaItem [⟨1, 1, 1, 10, 1, 1, 0⟩, ⟨2, 1, 2, 20, 1, 3, 0⟩] 1
          = some (([⟨1, 1, 1, 10, 1, 1, 0⟩, ⟨2, 1, 2, 20, 1, 3, 0⟩] :
              List GachaItemMaster).get ⟨i, hi⟩) ∧
      (1 : Int) < cumWeight [⟨1, 1, 1, 10, 1, 1, 0⟩, ⟨2, 1, 2, 20, 1, 3, 0⟩] (i + 1) ∧
      ∀ j, j < i → cumWeight [⟨1, 1, 1, 10, 1, 1, 0⟩, ⟨2, 1, 2, 20, 1, 3, 0⟩] (j + 1) ≤ 1)
    ∧ (drawGachaResult [⟨1, 1, 1, 10, 1, 1, 0⟩, ⟨2, 1, 2, 20, 1, 3, 0⟩] 10
        (fun i => ((i % 4 : Nat) : Int))).length = 10 :=
  drawGacha_selection [⟨1, 1, 1, 10, 1, 1, 0⟩, ⟨2, 1, 2, 20, 1, 3, 0⟩] 1 10
    (fun i => ((i % 4 : Nat) : Int)) (by decide) (by decide) (by decide) (Or.inr rfl)
    (by decide)

/-- C3 counterexample: naming the already-received present 1 next to the
pending present 2 does not fail the call — the load filters received
presents out, the call succeeds and present 2 is granted (the user's
balance rises by its 50 coins), refuting the claim that the whole call
fails as a fatal condition. -/
theorem receivePresent_received_counterexample :
    (receivePresent [] [] storeC3 1 [1, 2] 10 1000).1
      = .ok [⟨2, 1, 0, 1, 0, 50, "m", 0, 10, some 10⟩]
    ∧ ((receivePresent [] [] storeC3 1 [1, 2] 10 1000).2).users
      = [⟨1, 50, 0, 0, 0, 0, 0, none⟩] := by
  exact ⟨rfl, rfl⟩

/-- C3 amended: a present id that names an already-received present is
silently dropped by the unreceived-filtering load: with distinct present
row ids, the call behaves exactly as if that id had not been named, and
the rest of the batch is granted as usual. -/
theorem receivePresent_skips_received (cache masters : List ItemMaster) (s : Store)
    (userID : Int) (presentIDs : List Int) (requestAt nid : Int)
    (p : UserPresent) (d : Int) (hp : p ∈ s.presents) (hd : p.deletedAt = some d)
    (hids : s.presents.Pairwise (fun a b => a.id ≠ b.id)) :
    receivePresent cache masters s userID presentIDs requestAt nid
      = receivePresent cache masters s userID (presentIDs.filter (fun i => i ≠ p.id))
          requestAt nid := by
  have hfilter : s.presents.filter (fun q => q.id ∈ presentIDs ∧ q.deletedAt = none)
      = s.presents.filter
          (fun q => q.id ∈ presentIDs.filter (fun i => i ≠ p.id) ∧ q.deletedAt = none) := by
    apply List.filter_congr
    intro q hq
    by_cases hdel : q.deletedAt = none
    · have hqp : q ≠ p := by
        intro h
        rw [h, hd] at hdel
        exact Option.noConfusion hdel
      have hqid : q.id ≠ p.id := hids.forall (by intro a b h; exact Ne.symm h) hq hp hqp
      simp [hdel, List.mem_filter, hqid]
    · simp [hdel]
  simp only [receivePresent]
  rw [hfilter]

/-- Witness for C3's amended statement: on `storeC3` the call naming
ids 1 and 2 equals the call naming only id 2. -/
theorem receivePresent_skips_received_witness :
    receivePresent [] [] storeC3 1 [1, 2] 10 1000
      = receivePresent [] [] storeC3 1 ([1, 2].filter (fun i => i ≠ 1)) 10 1000 :=
  receivePresent_skips_received [] [] storeC3 1 [1, 2] 10 1000
    ⟨1, 1, 0, 1, 0, 100, "m", 0, 0, some 5⟩ 5 (by decide) rfl (by decide)

/-- C2 counterexample: with balance 5000 and a 10-draw (cost 10000) the
request is rejected with Conflict, but a store write has already
happened before the rejection — the one-time token row is marked
consumed — refuting "no store write of any kind has been performed". -/
theorem drawGacha_conflict_counterexample :
    drawGacha [] storeC2 1 1 10 "drawTok" "viewer1" 10 (fun _ => 0) 1000
      = (.error .conflict,
          { storeC2 with tokens := ⟨[], [⟨1, 1, "drawTok", 1, 100, 0, 0, some 10⟩]⟩ })
    ∧ (drawGacha [] storeC2 1 1 10 "drawTok" "viewer1" 10 (fun _ => 0) 1000).2.tokens
        ≠ storeC2.tokens := by
  exact ⟨rfl, by decide⟩

/-- C2 amended: a draw request that passes the token and viewer checks
with balance below `count * 1000` is rejected with Conflict before any
write of the draw transaction (presents, balances and all other tables
keep their state) — but the one-time-token consumption performed by the
preceding check has already written to the token store. -/
theorem drawGacha_conflict (gc : List GachaCacheEntry) (s : Store)
    (userID gachaID gachaCount : Int) (tok view : String) (requestAt : Int)
    (randoms : Nat → Int) (nid : Int) (user : User)
    (hcount : gachaCount = 1 ∨ gachaCount = 10)
    (htok : (checkOneTimeToken s.tokens userID tok 1 requestAt).1 = .ok ())
    (hdev : (s.devices.find? (fun d => d.userID = userID ∧ d.platformID = view)).isSome)
    (huser : s.users.find? (fun u => u.id = userID) = some user)
    (hcoin : user.isuCoin < gachaCount * 1000) :
    drawGacha gc s userID gachaID gachaCount tok view requestAt randoms nid
      = (.error .conflict,
          { s with tokens := (checkOneTimeToken s.tokens userID tok 1 requestAt).2 }) := by
  unfold drawGacha
  rw [if_neg (by rcases hcount with h | h <;> simp [h])]
  rcases hp : checkOneTimeToken s.tokens userID tok 1 requestAt with ⟨res, ts1⟩
  rw [hp] at htok
  obtain rfl : res = .ok () := htok
  rw [Option.isSome_iff_exists] at hdev
  obtain ⟨dev, hdev⟩ := hdev
  simp only [hdev, huser, if_pos hcoin]

/-- Witness for C2's amended statement on `storeC2` with a 10-draw. -/
theorem drawGacha_conflict_witness :
    drawGacha [] storeC2 1 1 10 "drawTok" "viewer1" 10 (fun _ => 1) 1000
      = (.error .conflict,
          { storeC2 with
              tokens := (checkOneTimeToken storeC2.tokens 1 "drawTok" 1 10).2 }) :=
  drawGacha_conflict [] storeC2 1 1 10 "drawTok" "viewer1" 10 (fun _ => 1) 1000
    ⟨1, 5000, 0, 0, 0, 0, 0, none⟩ (Or.inr rfl) rfl (by decide) (by decide) (by decide)

/-! ### Material aggregation lemmas (towards C1 and C9) -/

/-- Head lookup in the totals list. -/
theorem lookupMat_cons_self (kv : Int × Int) (rest : List (Int × Int)) :
    lookupMat (kv :: rest) kv.1 = some kv.2 := by
  simp [lookupMat, List.find?_cons]

/-- Lookup past a head with a different key. -/
theorem lookupMat_cons_ne (kv : Int × Int) (rest : List (Int × Int)) (k : Int)
    (h : ¬ kv.1 = k) : lookupMat (kv :: rest) k = lookupMat rest k := by
  simp [lookupMat, List.find?_cons, h]

/-- A successful lookup names an entry of the list. -/
theorem lookupMat_mem (mats : List (Int × Int)) (k : Int) (a : Int)
    (h : lookupMat mats k = some a) : ∃ kv ∈ mats, kv.1 = k ∧ kv.2 = a := by
  unfold lookupMat at h
  rcases hf : mats.find? (fun kv => kv.1 = k) with _ | kv
  · rw [hf] at h
    simp at h
  · rw [hf] at h
    have hmem := List.mem_of_find?_eq_some hf
    have hpred := List.find?_some hf
    rw [decide_eq_true_eq] at hpred
    simp at h
    exact ⟨kv, hmem, hpred, h⟩

/-- Effect of one `materialItems[itemID] += amount` step on a lookup. -/
theorem lookupMat_addMaterial (m : List (Int × Int)) (i a k : Int) :
    lookupMat (addMaterial m i a) k
      = if k = i then some (lookupMatD m k + a) else lookupMat m k := by
  induction m with
  | nil =>
    by_cases h : k = i
    · subst h
      simp [addMaterial, lookupMat, lookupMatD, List.find?_cons]
    · have h2 : ¬ i = k := fun hh => h hh.symm
      simp [addMaterial, lookupMat, List.find?_cons, h2, h]
  | cons kv rest ih =>
    by_cases hki : kv.1 = i
    · simp only [addMaterial, if_pos hki]
      by_cases h : k = i
      · have hkvk : kv.1 = k := by rw [hki, h]
        rw [if_pos h]
        have h1 : lookupMat ((kv.1, kv.2 + a) :: rest) k = some (kv.2 + a) := by
          have := lookupMat_cons_self (kv.1, kv.2 + a) rest
          simpa [hkvk] using this
        have h2 : lookupMatD (kv :: rest) k = kv.2 := by
          have := lookupMat_cons_self kv rest
          simp [lookupMatD, hkvk ▸ this]
        rw [h1, h2]
      · have hkvk : ¬ kv.1 = k := by rw [hki]; exact fun hh => h hh.symm
        rw [if_neg h]
        rw [show lookupMat ((kv.1, kv.2 + a) :: rest) k = lookupMat rest k from
          lookupMat_cons_ne (kv.1, kv.2 + a) rest k hkvk]
        rw [lookupMat_cons_ne kv rest k hkvk]
    · simp only [addMaterial, if_neg hki]
      by_cases hkvk : kv.1 = k
      · have hki2 : ¬ k = i := by rw [← hkvk]; exact hki
        rw [if_neg hki2]
        rw [show lookupMat (kv :: addMaterial rest i a) k = some kv.2 from by
          have := lookupMat_cons_self kv (addMaterial rest i a)
          simpa [hkvk] using this]
        rw [show lookupMat (kv :: rest) k = some kv.2 from by
          have := lookupMat_cons_self kv rest
          simpa [hkvk] using this]
      · rw [lookupMat_cons_ne kv (addMaterial rest i a) k hkvk, ih,
          lookupMat_cons_ne kv rest k hkvk]
        by_cases h : k = i
        · rw [if_pos h, if_pos h]
          have : lookupMatD (kv :: rest) k = lookupMatD rest k := by
            simp [lookupMatD, lookupMat_cons_ne kv rest k hkvk]
          rw [this]
        · rw [if_neg h, if_neg h]

/-- The per-item totals built by `materialItemsOf` agree with the
spec-level material totals. -/
theorem lookupMatD_materialItemsOf (presents : List UserPresent) (k : Int) :
    lookupMatD (materialItemsOf presents) k = materialTotal presents k := by
  unfold materialItemsOf materialTotal
  suffices h : ∀ (l : List UserPresent) (m : List (Int × Int)),
      lookupMatD (l.foldl (fun m p =>
          if p.itemType = 3 ∨ p.itemType = 4 then addMaterial m p.itemID p.amount else m) m) k
        = lookupMatD m k
          + ((l.filter (fun p => (p.itemType = 3 ∨ p.itemType = 4) ∧ p.itemID = k)).map
              (fun p => p.amount)).sum by
    have h0 : lookupMatD [] k = 0 := rfl
    simpa [h0] using h presents []
  intro l
  induction l with
  | nil => intro m; simp
  | cons p rest ih =>
    intro m
    by_cases hmat : p.itemType = 3 ∨ p.itemType = 4
    · simp only [List.foldl_cons, if_pos hmat, List.filter_cons]
      rw [ih]
      by_cases hk : p.itemID = k
      · have : lookupMatD (addMaterial m p.itemID p.amount) k = lookupMatD m k + p.amount := by
          simp [lookupMatD, lookupMat_addMaterial, hk.symm]
        rw [this]
        simp [hmat, hk]
        ring
      · have hki : ¬ k = p.itemID := fun hh => hk hh.symm
        have : lookupMatD (addMaterial m p.itemID p.amount) k = lookupMatD m k := by
          simp [lookupMatD, lookupMat_addMaterial, hki]
        rw [this]
        simp [hmat, hk]
    · simp only [List.foldl_cons, if_neg hmat, List.filter_cons]
      rw [ih]
      have : ¬ ((p.itemType = 3 ∨ p.itemType = 4) ∧ p.itemID = k) := fun hh => hmat hh.1
      simp [this]

/-- Every key reached by `addMaterial` is the added key or an existing
key. -/
theorem addMaterial_mem (m : List (Int × Int)) (i a : Int) :
    ∀ kv ∈ addMaterial m i a, kv.1 = i ∨ ∃ kv2 ∈ m, kv.1 = kv2.1 := by
  induction m with
  | nil =>
    intro kv hkv
    rw [show addMaterial [] i a = [(i, a)] from rfl, List.mem_singleton] at hkv
    left
    rw [hkv]
  | cons h rest ih =>
    intro kv hkv
    by_cases hh : h.1 = i
    · simp only [addMaterial, if_pos hh] at hkv
      rcases List.mem_cons.mp hkv with he | hm
      · right
        exact ⟨h, List.mem_cons_self h rest, by rw [he]⟩
      · right
        exact ⟨kv, List.mem_cons_of_mem h hm, rfl⟩
    · simp only [addMaterial, if_neg hh] at hkv
      rcases List.mem_cons.mp hkv with he | hm
      · right
        exact ⟨h, List.mem_cons_self h rest, by rw [he]⟩
      · rcases ih kv hm with hi | ⟨kv2, hkv2, he⟩
        · exact Or.inl hi
        · exact Or.inr ⟨kv2, List.mem_cons_of_mem h hkv2, he⟩

/-- `addMaterial` keeps the keys pairwise distinct. -/
theorem addMaterial_pairwise (m : List (Int × Int)) (i a : Int)
    (h : m.Pairwise (fun x y => x.1 ≠ y.1)) :
    (addMaterial m i a).Pairwise (fun x y => x.1 ≠ y.1) := by
  induction m with
  | nil => simp [addMaterial]
  | cons hd rest ih =>
    rw [List.pairwise_cons] at h
    obtain ⟨hhd, hrest⟩ := h
    by_cases hh : hd.1 = i
    · simp only [addMaterial, if_pos hh]
      rw [List.pairwise_cons]
      exact ⟨hhd, hrest⟩
    · simp only [addMaterial, if_neg hh]
      rw [List.pairwise_cons]
      refine ⟨?_, ih hrest⟩
      intro kv hkv
      rcases addMaterial_mem rest i a kv hkv with he | ⟨kv2, hkv2, he⟩
      · rw [he]
        exact hh
      · rw [he]
        exact hhd kv2 hkv2

/-- The per-item totals list has pairwise-distinct keys. -/
theorem materialItemsOf_pairwise (presents : List UserPresent) :
    (materialItemsOf presents).Pairwise (fun x y => x.1 ≠ y.1) := by
  unfold materialItemsOf
  suffices h : ∀ (l : List UserPresent) (m : List (Int × Int)),
      m.Pairwise (fun x y => x.1 ≠ y.1) →
      (l.foldl (fun m p =>
          if p.itemType = 3 ∨ p.itemType = 4 then addMaterial m p.itemID p.amount else m)
        m).Pairwise (fun x y => x.1 ≠ y.1) from
    h presents [] (by simp)
  intro l
  induction l with
  | nil => intro m hm; exact hm
  | cons p rest ih =>
    intro m hm
    by_cases hmat : p.itemType = 3 ∨ p.itemType = 4
    · simp only [List.foldl_cons, if_pos hmat]
      exact ih _ (addMaterial_pairwise m p.itemID p.amount hm)
    · simp only [List.foldl_cons, if_neg hmat]
      exact ih _ hm

/-! ### `lastItemFor` and `rowsFor` helpers (towards C1 and C9) -/

/-- The map-building fold keeps its accumulator over rows of other item
ids. -/
theorem lastItemFor_foldl_nomatch (k : Int) :
    ∀ (l : List UserItem) (acc : Option UserItem), (∀ y ∈ l, ¬ y.itemID = k) →
      l.foldl (fun acc it => if it.itemID = k then some it else acc) acc = acc := by
  intro l
  induction l with
  | nil => intro acc _; rfl
  | cons h rest ih =>
    intro acc hno
    have hh : ¬ h.itemID = k := hno h (List.mem_cons_self h rest)
    simp only [List.foldl_cons, if_neg hh]
    exact ih acc (fun y hy => hno y (List.mem_cons_of_mem h hy))

/-- When exactly one row of the list has the item id, the map lookup
returns it. -/
theorem lastItemFor_of_filter_singleton (k : Int) (x : UserItem) :
    ∀ (l : List UserItem), l.filter (fun it => it.itemID = k) = [x] →
      lastItemFor l k = some x := by
  suffices h : ∀ (l : List UserItem) (acc : Option UserItem),
      l.filter (fun it => it.itemID = k) = [x] →
      l.foldl (fun acc it => if it.itemID = k then some it else acc) acc = some x from
    fun l hl => h l none hl
  intro l
  induction l with
  | nil => intro acc h; simp at h
  | cons hd rest ih =>
    intro acc h
    by_cases hh : hd.itemID = k
    · have hb : decide (hd.itemID = k) = true := by simp [hh]
      rw [List.filter_cons, if_pos hb] at h
      injection h with h1 h2
      subst h1
      have hno : ∀ y ∈ rest, ¬ y.itemID = k := by
        intro y hy hyk
        have : y ∈ rest.filter (fun it => it.itemID = k) := by
          rw [List.mem_filter]
          exact ⟨hy, by simp [hyk]⟩
        rw [h2] at this
        exact absurd this (List.not_mem_nil y)
      simp only [List.foldl_cons, if_pos hh]
      exact lastItemFor_foldl_nomatch k rest (some hd) hno
    · have hb : ¬ decide (hd.itemID = k) = true := by simp [hh]
      rw [List.filter_cons, if_neg hb] at h
      simp only [List.foldl_cons, if_neg hh]
      exact ih acc h

/-- A row returned by the map lookup belongs to the list and carries the
looked-up item id. -/
theorem lastItemFor_mem (k : Int) (x : UserItem) :
    ∀ (l : List UserItem), lastItemFor l k = some x → x ∈ l ∧ x.itemID = k := by
  suffices h : ∀ (l : List UserItem) (acc : Option UserItem),
      l.foldl (fun acc it => if it.itemID = k then some it else acc) acc = some x →
      (x ∈ l ∧ x.itemID = k) ∨ acc = some x by
    intro l hl
    rcases h l none hl with hres | hres
    · exact hres
    · exact absurd hres (by simp)
  intro l
  induction l with
  | nil =>
    intro acc h
    right
    exact h
  | cons hd rest ih =>
    intro acc h
    simp only [List.foldl_cons] at h
    rcases ih _ h with ⟨hmem, hk⟩ | hstep
    · exact Or.inl ⟨List.mem_cons_of_mem hd hmem, hk⟩
    · by_cases hh : hd.itemID = k
      · rw [if_pos hh] at hstep
        injection hstep with h1
        subst h1
        exact Or.inl ⟨List.mem_cons_self hd rest, hh⟩
      · rw [if_neg hh] at hstep
        exact Or.inr hstep

/-- A matching row in the list makes the map lookup succeed. -/
theorem lastItemFor_isSome (k : Int) :
    ∀ (l : List UserItem), (∃ x ∈ l, x.itemID = k) → (lastItemFor l k).isSome := by
  suffices h : ∀ (l : List UserItem) (acc : Option UserItem), (∃ x ∈ l, x.itemID = k) →
      (l.foldl (fun acc it => if it.itemID = k then some it else acc) acc).isSome from
    fun l hl => h l none hl
  intro l
  induction l with
  | nil =>
    intro acc h
    obtain ⟨x, hx, _⟩ := h
    exact absurd hx (List.not_mem_nil x)
  | cons hd rest ih =>
    intro acc h
    simp only [List.foldl_cons]
    by_cases hr : ∃ y ∈ rest, y.itemID = k
    · exact ih _ hr
    · obtain ⟨x, hx, hxk⟩ := h
      rcases List.mem_cons.mp hx with he | hm
      · subst he
        rw [if_pos hxk,
          lastItemFor_foldl_nomatch k rest (some x) (fun y hy hyk => hr ⟨y, hy, hyk⟩)]
        rfl
      · exact absurd ⟨x, hm, hxk⟩ hr

/-- Under the per-(user, item) uniqueness invariant, a (user, item) pair
selects no row or exactly one. -/
theorem rowsFor_unique (uid k : Int) :
    ∀ (l : List UserItem),
      l.Pairwise (fun a b => a.userID ≠ b.userID ∨ a.itemID ≠ b.itemID) →
      rowsFor l uid k = [] ∨ ∃ x, rowsFor l uid k = [x] := by
  intro l
  induction l with
  | nil => intro _; exact Or.inl rfl
  | cons hd rest ih =>
    intro hpair
    rw [List.pairwise_cons] at hpair
    obtain ⟨hhd, hrest⟩ := hpair
    unfold rowsFor
    by_cases hp : hd.userID = uid ∧ hd.itemID = k
    · have hb : decide (hd.userID = uid ∧ hd.itemID = k) = true := by simp [hp]
      rw [List.filter_cons, if_pos hb]
      right
      refine ⟨hd, ?_⟩
      have hno : rest.filter (fun it => decide (it.userID = uid ∧ it.itemID = k)) = [] := by
        rw [List.filter_eq_nil_iff]
        intro y hy hyb
        rw [decide_eq_true_eq] at hyb
        rcases hhd y hy with hne | hne
        · exact hne (hp.1.trans hyb.1.symm)
        · exact hne (hp.2.trans hyb.2.symm)
      rw [hno]
    · have hb : ¬ decide (hd.userID = uid ∧ hd.itemID = k) = true := by simp [hp]
      rw [List.filter_cons, if_neg hb]
      exact ih hrest

/-- Membership in the rows of a (user, item) pair. -/
theorem rowsFor_mem (l : List UserItem) (uid k : Int) (x : UserItem) :
    x ∈ rowsFor l uid k ↔ x ∈ l ∧ x.userID = uid ∧ x.itemID = k := by
  unfold rowsFor
  rw [List.mem_filter]
  simp

/-- With pairwise-distinct row ids, members are determined by their
id. -/
theorem item_id_injective (l : List UserItem)
    (hids : l.Pairwise (fun a b => a.id ≠ b.id)) (a b : UserItem)
    (ha : a ∈ l) (hb : b ∈ l) (h : a.id = b.id) : a = b := by
  by_cases hab : a = b
  · exact hab
  · exact absurd h (hids.forall (by intro x y hxy; exact Ne.symm hxy) ha hb hab)

/-- A filter over a list with pairwise-distinct item ids, whose
predicate only accepts one item id present in the list, yields exactly
that row. -/
theorem filter_eq_singleton_of_itemID (p : UserItem → Bool) (x : UserItem) :
    ∀ (l : List UserItem), l.Pairwise (fun a b => a.itemID ≠ b.itemID) →
      x ∈ l → p x = true → (∀ y, p y = true → y.itemID = x.itemID) →
      l.filter p = [x] := by
  intro l
  induction l with
  | nil =>
    intro _ hx
    exact absurd hx (List.not_mem_nil x)
  | cons hd rest ih =>
    intro hpair hx hpx honly
    rw [List.pairwise_cons] at hpair
    obtain ⟨hhd, hrest⟩ := hpair
    by_cases hp : p hd = true
    · have hhdx : hd.itemID = x.itemID := honly hd hp
      have hex : x = hd := by
        rcases List.mem_cons.mp hx with he | hm
        · exact he
        · exact absurd hhdx (hhd x hm)
      subst hex
      rw [List.filter_cons, if_pos hp]
      have hno : rest.filter p = [] := by
        rw [List.filter_eq_nil_iff]
        intro y hy hpy
        exact hhd y hy (honly y hpy).symm
      rw [hno]
    · have hex : ¬ x = hd := fun he => hp (he ▸ hpx)
      have hm : x ∈ rest := by
        rcases List.mem_cons.mp hx with he | hm
        · exact absurd he hex
        · exact hm
      rw [List.filter_cons, if_neg hp]
      exact ih hrest hm hpx honly

/-- Restricting the pre-filtered material rows to one key gives exactly
the (user, item) rows, provided the key is queried. -/
theorem existing_filter_eq (items : List UserItem) (uid k : Int) (keys : List Int)
    (hk : k ∈ keys) :
    (items.filter (fun it => it.userID = uid ∧ it.itemID ∈ keys)).filter
        (fun it => it.itemID = k)
      = rowsFor items uid k := by
  rw [List.filter_filter]
  unfold rowsFor
  apply List.filter_congr
  intro it _
  by_cases h1 : it.userID = uid
  · by_cases h2 : it.itemID = k
    · simp [h1, h2, hk]
    · simp [h1, h2]
  · simp [h1]

/-! ### Characterization of the material pass (towards C1 and C9) -/

/-- A lookup that succeeds in the tail also succeeds past a head whose
key is fresh. -/
theorem lookupMat_lift (kv : Int × Int) (rest : List (Int × Int)) (k a : Int)
    (hsome : lookupMat rest k = some a) (hfresh : ∀ y ∈ rest, kv.1 ≠ y.1) :
    lookupMat (kv :: rest) k = some a := by
  obtain ⟨kv2, hkv2, hk2, _⟩ := lookupMat_mem rest k a hsome
  rw [lookupMat_cons_ne kv rest k (by rw [← hk2]; exact hfresh kv2 hkv2)]
  exact hsome

/-- Full characterization of a successful material pass: every produced
update stems from a queried key with an existing row, every produced
insert row carries the key's total and its master's item type for a key
with no existing row, every queried key produces its update or insert,
and the insert rows have pairwise-distinct item ids. -/
theorem processMaterials_ok_char (masters : List ItemMaster) (existing : List UserItem)
    (uid t : Int) :
    ∀ (mats : List (Int × Int)) (nid : Int) (upds inss : List UserItem) (nid2 : Int),
      mats.Pairwise (fun x y => x.1 ≠ y.1) →
      processMaterials masters existing uid t mats nid = .ok (upds, inss, nid2) →
      (∀ u ∈ upds, ∃ k2 a2 ex2, lookupMat mats k2 = some a2
          ∧ lastItemFor existing k2 = some ex2
          ∧ u = { ex2 with amount := ex2.amount + a2, updatedAt := t })
      ∧ (∀ r ∈ inss, r.userID = uid ∧ lastItemFor existing r.itemID = none
          ∧ ∃ a2 m, lookupMat mats r.itemID = some a2
              ∧ findMaterialMaster masters r.itemID = some m
              ∧ r = ⟨r.id, uid, m.itemType, r.itemID, a2, t, t, none⟩)
      ∧ (∀ k a, lookupMat mats k = some a →
          (∀ ex, lastItemFor existing k = some ex →
            ({ ex with amount := ex.amount + a, updatedAt := t } : UserItem) ∈ upds)
          ∧ (lastItemFor existing k = none →
            ∃ rid m, findMaterialMaster masters k = some m
              ∧ (⟨rid, uid, m.itemType, k, a, t, t, none⟩ : UserItem) ∈ inss))
      ∧ inss.Pairwise (fun x y => x.itemID ≠ y.itemID) := by
  intro mats
  induction mats with
  | nil =>
    intro nid upds inss nid2 _ hok
    simp only [processMaterials] at hok
    simp at hok
    obtain ⟨hu, hi, _⟩ := hok
    subst hu hi
    refine ⟨by simp, by simp, ?_, by simp⟩
    intro k a hka
    exact absurd hka (by simp [lookupMat])
  | cons kv rest ih =>
    intro nid upds inss nid2 hpair hok
    rw [List.pairwise_cons] at hpair
    obtain ⟨hfresh, hpr⟩ := hpair
    simp only [processMaterials] at hok
    rcases hm : findMaterialMaster masters kv.1 with _ | master
    · rw [hm] at hok
      simp at hok
    · rw [hm] at hok
      rcases hl : lastItemFor existing kv.1 with _ | ex
      · -- no existing row: the insert branch
        simp only [hl] at hok
        rcases hrec : processMaterials masters existing uid t rest (nid + 1) with e | res
        · rw [hrec] at hok
          simp at hok
        · obtain ⟨upds2, inss2, nid3⟩ := res
          rw [hrec] at hok
          injection hok with hok2
          injection hok2 with h1 hok3
          injection hok3 with h2 h3
          subst h1
          subst h2
          obtain ⟨ihU, ihI, ihK, ihD⟩ := ih (nid + 1) upds2 inss2 nid3 hpr hrec
          refine ⟨?_, ?_, ?_, ?_⟩
          · intro u hu
            obtain ⟨k2, a2, ex2, hk2, hex2, hshape⟩ := ihU u hu
            exact ⟨k2, a2, ex2, lookupMat_lift kv rest k2 a2 hk2 hfresh, hex2, hshape⟩
          · intro r hr
            rcases List.mem_cons.mp hr with he | hm2
            · subst he
              exact ⟨rfl, by simpa using hl, kv.2, master,
                by simpa using lookupMat_cons_self kv rest, by simpa using hm, rfl⟩
            · obtain ⟨hr1, hr2, a2, m, hr3, hr4, hr5⟩ := ihI r hm2
              exact ⟨hr1, hr2, a2, m, lookupMat_lift kv rest r.itemID a2 hr3 hfresh, hr4, hr5⟩
          · intro k a hka
            by_cases hk : kv.1 = k
            · subst hk
              have ha : a = kv.2 := by
                rw [lookupMat_cons_self kv rest] at hka
                injection hka with hv
                exact hv.symm
              subst ha
              constructor
              · intro ex2 hex2
                rw [hl] at hex2
                exact absurd hex2 (by simp)
              · intro _
                exact ⟨nid, master, hm, List.mem_cons_self _ _⟩
            · rw [lookupMat_cons_ne kv rest k hk] at hka
              obtain ⟨hksome, hknone⟩ := ihK k a hka
              refine ⟨fun ex2 hex2 => hksome ex2 hex2, ?_⟩
              intro hnone
              obtain ⟨rid, m, hfm, hmem⟩ := hknone hnone
              exact ⟨rid, m, hfm, List.mem_cons_of_mem _ hmem⟩
          · rw [List.pairwise_cons]
            refine ⟨?_, ihD⟩
            intro r hr
            obtain ⟨_, _, a2, m, hr3, _, _⟩ := ihI r hr
            obtain ⟨kv2, hkv2, hkey, _⟩ := lookupMat_mem rest r.itemID a2 hr3
            exact hkey ▸ hfresh kv2 hkv2
      · -- an existing row: the update branch
        simp only [hl] at hok
        rcases hrec : processMaterials masters existing uid t rest nid with e | res
        · rw [hrec] at hok
          simp at hok
        · obtain ⟨upds2, inss2, nid3⟩ := res
          rw [hrec] at hok
          injection hok with hok2
          injection hok2 with h1 hok3
          injection hok3 with h2 h3
          subst h1
          subst h2
          obtain ⟨ihU, ihI, ihK, ihD⟩ := ih nid upds2 inss2 nid3 hpr hrec
          refine ⟨?_, ?_, ?_, ihD⟩
          · intro u hu
            rcases List.mem_cons.mp hu with he | hm2
            · subst he
              exact ⟨kv.1, kv.2, ex, lookupMat_cons_self kv rest, hl, rfl⟩
            · obtain ⟨k2, a2, ex2, hk2, hex2, hshape⟩ := ihU u hm2
              exact ⟨k2, a2, ex2, lookupMat_lift kv rest k2 a2 hk2 hfresh, hex2, hshape⟩
          · intro r hr
            obtain ⟨hr1, hr2, a2, m, hr3, hr4, hr5⟩ := ihI r hr
            exact ⟨hr1, hr2, a2, m, lookupMat_lift kv rest r.itemID a2 hr3 hfresh, hr4, hr5⟩
          · intro k a hka
            by_cases hk : kv.1 = k
            · subst hk
              have ha : a = kv.2 := by
                rw [lookupMat_cons_self kv rest] at hka
                injection hka with hv
                exact hv.symm
              subst ha
              constructor
              · intro ex2 hex2
                rw [hl] at hex2
                injection hex2 with hex3
                rw [← hex3]
                exact List.mem_cons_self _ _
              · intro hnone
                rw [hl] at hnone
                exact absurd hnone (by simp)
            · rw [lookupMat_cons_ne kv rest k hk] at hka
              obtain ⟨hksome, hknone⟩ := ihK k a hka
              refine ⟨?_, ?_⟩
              · intro ex2 hex2
                exact List.mem_cons_of_mem _ (hksome ex2 hex2)
              · intro hnone
                obtain ⟨rid, m, hfm, hmem⟩ := hknone hnone
                exact ⟨rid, m, hfm, hmem⟩

/-- Non-negative present amounts give a non-negative coin total. -/
theorem coinTotalOf_nonneg (presents : List UserPresent)
    (h : ∀ p ∈ presents, 0 ≤ p.amount) : 0 ≤ coinTotalOf presents := by
  unfold coinTotalOf
  suffices haux : ∀ (l : List UserPresent) (acc : Int), (∀ p ∈ l, 0 ≤ p.amount) →
      acc ≤ l.foldl (fun acc p => if p.itemType = 1 then acc + p.amount else acc) acc from
    haux presents 0 h
  intro l
  induction l with
  | nil => intro acc _; exact le_refl acc
  | cons p rest ih =>
    intro acc hl
    have hp := hl p (List.mem_cons_self p rest)
    have hrest := fun q hq => hl q (List.mem_cons_of_mem p hq)
    simp only [List.foldl_cons]
    by_cases hc : p.itemType = 1
    · rw [if_pos hc]
      exact le_trans (by omega) (ih (acc + p.amount) hrest)
    · rw [if_neg hc]
      exact ih acc hrest

/-- A successful card expansion produces one row per unit of amount. -/
theorem expandCards_length (cache masters : List ItemMaster) (uid t : Int) :
    ∀ (items : List UserPresent) (nid : Int) (cs : List UserCard) (nid2 : Int),
      expandCards cache masters uid t items nid = .ok (cs, nid2) →
      cs.length = ((items.map (fun p => p.amount.toNat)).sum) := by
  intro items
  induction items with
  | nil =>
    intro nid cs nid2 hok
    simp only [expandCards] at hok
    injection hok with hok2
    injection hok2 with h1 _
    subst h1
    rfl
  | cons item rest ih =>
    intro nid cs nid2 hok
    simp only [expandCards] at hok
    rcases hres : resolveCardMaster cache masters item.itemID with _ | master
    · rw [hres] at hok
      simp at hok
    · rw [hres] at hok
      rcases hrec : expandCards cache masters uid t rest (nid + (item.amount.toNat : Int))
          with e | res
      · rw [hrec] at hok
        simp at hok
      · obtain ⟨cs2, nid3⟩ := res
        rw [hrec] at hok
        injection hok with hok2
        injection hok2 with h1 _
        subst h1
        rw [List.length_append, List.length_map, List.length_range, ih _ cs2 nid3 hrec,
          List.map_cons, List.sum_cons]

/-- The batched update touches only amount and timestamp, so the rows of
a (user, item) pair after it are the mapped rows of the pair before
it. -/
theorem applyItemUpdates_rowsFor (items upds : List UserItem) (uid k : Int) :
    rowsFor (applyItemUpdates items upds) uid k
      = (rowsFor items uid k).map (fun it =>
          match upds.find? (fun u => u.id = it.id) with
          | some u => { it with amount := u.amount, updatedAt := u.updatedAt }
          | none => it) := by
  unfold applyItemUpdates rowsFor
  rw [List.filter_map]
  congr 1
  apply List.filter_congr
  intro it _
  rcases hf : upds.find? (fun u => u.id = it.id) with _ | u
  · simp [Function.comp, hf]
  · simp [Function.comp, hf]

/-- Row selection distributes over appending. -/
theorem rowsFor_append (a b : List UserItem) (uid k : Int) :
    rowsFor (a ++ b) uid k = rowsFor a uid k ++ rowsFor b uid k := by
  unfold rowsFor
  rw [List.filter_append]

/-- The batched update and insert of the material pass, applied to a
store slice satisfying the uniqueness invariants, change exactly the
(user, item) rows of the queried keys: an unqueried key or another user
keeps its rows, a queried key with one existing row gets that row's
amount raised by the key's total, and a queried key with no row gets
exactly one fresh row carrying the total; the per-(user, item)
uniqueness invariant is preserved. -/
theorem items_after_materials_spec (masters : List ItemMaster)
    (items existing upds inss : List UserItem) (mats : List (Int × Int)) (uid t : Int)
    (hids : items.Pairwise (fun a b => a.id ≠ b.id))
    (huniq : items.Pairwise (fun a b => a.userID ≠ b.userID ∨ a.itemID ≠ b.itemID))
    (hex : existing = items.filter
        (fun it => it.userID = uid ∧ it.itemID ∈ mats.map (fun kv => kv.1)))
    (hU : ∀ u ∈ upds, ∃ k2 a2 ex2, lookupMat mats k2 = some a2
        ∧ lastItemFor existing k2 = some ex2
        ∧ u = { ex2 with amount := ex2.amount + a2, updatedAt := t })
    (hI : ∀ r ∈ inss, r.userID = uid ∧ lastItemFor existing r.itemID = none
        ∧ ∃ a2 m, lookupMat mats r.itemID = some a2
            ∧ findMaterialMaster masters r.itemID = some m
            ∧ r = ⟨r.id, uid, m.itemType, r.itemID, a2, t, t, none⟩)
    (hK : ∀ k a, lookupMat mats k = some a →
        (∀ ex, lastItemFor existing k = some ex →
          ({ ex with amount := ex.amount + a, updatedAt := t } : UserItem) ∈ upds)
        ∧ (lastItemFor existing k = none →
          ∃ rid m, findMaterialMaster masters k = some m
            ∧ (⟨rid, uid, m.itemType, k, a, t, t, none⟩ : UserItem) ∈ inss))
    (hD : inss.Pairwise (fun x y => x.itemID ≠ y.itemID)) :
    (∀ k, lookupMat mats k = none →
      rowsFor (applyItemUpdates items upds ++ inss) uid k = rowsFor items uid k)
    ∧ (∀ k a, lookupMat mats k = some a →
        (∀ ex, rowsFor items uid k = [ex] →
          rowsFor (applyItemUpdates items upds ++ inss) uid k
            = [{ ex with amount := ex.amount + a, updatedAt := t }])
        ∧ (rowsFor items uid k = [] →
          ∃ rid m, findMaterialMaster masters k = some m
            ∧ rowsFor (applyItemUpdates items upds ++ inss) uid k
                = [⟨rid, uid, m.itemType, k, a, t, t, none⟩]))
    ∧ (∀ u2 k, u2 ≠ uid →
        rowsFor (applyItemUpdates items upds ++ inss) u2 k = rowsFor items u2 k)
    ∧ (applyItemUpdates items upds ++ inss).Pairwise
        (fun a b => a.userID ≠ b.userID ∨ a.itemID ≠ b.itemID) := by
  -- membership facts about the pre-filtered rows
  have hexmem : ∀ x ∈ existing,
      x ∈ items ∧ x.userID = uid ∧ x.itemID ∈ mats.map (fun kv => kv.1) := by
    intro x hx
    rw [hex, List.mem_filter] at hx
    exact ⟨hx.1, by simpa using hx.2⟩
  -- rows of other users or unqueried keys are never matched by an update
  have hfindnone : ∀ it ∈ items,
      (it.userID ≠ uid ∨ lookupMat mats it.itemID = none) →
      upds.find? (fun u => u.id = it.id) = none := by
    intro it hit hside
    apply List.find?_eq_none.mpr
    intro u hu hedec
    rw [decide_eq_true_eq] at hedec
    obtain ⟨k2, a2, ex2, hk2, hex2, hshape⟩ := hU u hu
    obtain ⟨hex2mem, hex2id⟩ := lastItemFor_mem k2 ex2 existing hex2
    obtain ⟨hex2items, hex2uid, _⟩ := hexmem ex2 hex2mem
    have huid2 : u.id = ex2.id := by rw [hshape]
    have heq : ex2 = it :=
      item_id_injective items hids ex2 it hex2items hit (huid2 ▸ hedec)
    rcases hside with hside | hside
    · exact hside (heq ▸ hex2uid)
    · rw [← heq, hex2id] at hside
      rw [hside] at hk2
      exact Option.noConfusion hk2
  -- the update for an existing (uid, k) row is found by that row's id
  have hfindsome : ∀ k a ex0, lookupMat mats k = some a → rowsFor items uid k = [ex0] →
      upds.find? (fun u => u.id = ex0.id)
        = some { ex0 with amount := ex0.amount + a, updatedAt := t } := by
    intro k a ex0 hsome hrows
    have hkmem : k ∈ mats.map (fun kv => kv.1) := by
      obtain ⟨kv, hkv, hk1, _⟩ := lookupMat_mem mats k a hsome
      exact List.mem_map.mpr ⟨kv, hkv, hk1⟩
    have hex0 : ex0 ∈ items ∧ ex0.userID = uid ∧ ex0.itemID = k := by
      rw [← rowsFor_mem]
      rw [hrows]
      exact List.mem_singleton.mpr rfl
    have hlast : lastItemFor existing k = some ex0 := by
      apply lastItemFor_of_filter_singleton
      rw [hex, existing_filter_eq items uid k _ hkmem, hrows]
    have hmemupd := (hK k a hsome).1 ex0 hlast
    have hissome : (upds.find? (fun u => u.id = ex0.id)).isSome :=
      List.find?_isSome.mpr ⟨_, hmemupd, by simp⟩
    obtain ⟨u, hufind⟩ := Option.isSome_iff_exists.mp hissome
    have humem := List.mem_of_find?_eq_some hufind
    have hupred := List.find?_some hufind
    rw [decide_eq_true_eq] at hupred
    obtain ⟨k2, a2, ex2, hk2, hex2, hshape⟩ := hU u humem
    obtain ⟨hex2mem, hex2id⟩ := lastItemFor_mem k2 ex2 existing hex2
    obtain ⟨hex2items, _, _⟩ := hexmem ex2 hex2mem
    have huid2 : u.id = ex2.id := by rw [hshape]
    have heq : ex2 = ex0 :=
      item_id_injective items hids ex2 ex0 hex2items hex0.1 (huid2 ▸ hupred)
    have hkk : k2 = k := by rw [← hex2id, heq, hex0.2.2]
    rw [hkk, hsome] at hk2
    injection hk2 with ha2
    rw [hufind, hshape, heq, ha2]
  -- rows of fresh inserts for other predicates vanish
  have hinsnone : ∀ u2 k, (u2 ≠ uid ∨ lookupMat mats k = none) →
      rowsFor inss u2 k = [] := by
    intro u2 k hside
    unfold rowsFor
    rw [List.filter_eq_nil_iff]
    intro r hr hrp
    rw [decide_eq_true_eq] at hrp
    obtain ⟨hruid, _, a2, m, hrk, _, _⟩ := hI r hr
    rcases hside with hside | hside
    · exact hside (hrp.1 ▸ hruid : u2 = uid)
    · rw [hrp.2, hside] at hrk
      exact Option.noConfusion hrk
  refine ⟨?_, ?_, ?_, ?_⟩
  · -- unqueried keys
    intro k hnone
    rw [rowsFor_append, applyItemUpdates_rowsFor,
      hinsnone uid k (Or.inr hnone), List.append_nil]
    have hid : ∀ it ∈ rowsFor items uid k, (fun it =>
        match upds.find? (fun u => u.id = it.id) with
        | some u => { it with amount := u.amount, updatedAt := u.updatedAt }
        | none => it) it = it := by
      intro it hit
      rw [rowsFor_mem] at hit
      have hf := hfindnone it hit.1 (Or.inr (hit.2.2 ▸ hnone))
      simp only [hf]
    rw [List.map_congr_left hid]
    exact List.map_id _
  · -- queried keys
    intro k a hsome
    constructor
    · intro ex0 hrows
      have hlast : lastItemFor existing k = some ex0 := by
        have hkmem : k ∈ mats.map (fun kv => kv.1) := by
          obtain ⟨kv, hkv, hk1, _⟩ := lookupMat_mem mats k a hsome
          exact List.mem_map.mpr ⟨kv, hkv, hk1⟩
        apply lastItemFor_of_filter_singleton
        rw [hex, existing_filter_eq items uid k _ hkmem, hrows]
      have hinss : rowsFor inss uid k = [] := by
        unfold rowsFor
        rw [List.filter_eq_nil_iff]
        intro r hr hrp
        rw [decide_eq_true_eq] at hrp
        obtain ⟨_, hrlast, _⟩ := hI r hr
        rw [hrp.2, hlast] at hrlast
        exact Option.noConfusion hrlast
      rw [rowsFor_append, applyItemUpdates_rowsFor, hinss, List.append_nil, hrows]
      rw [List.map_singleton]
      rw [hfindsome k a ex0 hsome hrows]
    · intro hrows
      have hlastnone : lastItemFor existing k = none := by
        rcases hle : lastItemFor existing k with _ | ex2
        · rfl
        · obtain ⟨hex2mem, hex2id⟩ := lastItemFor_mem k ex2 existing hle
          obtain ⟨hex2items, hex2uid, _⟩ := hexmem ex2 hex2mem
          have : ex2 ∈ rowsFor items uid k :=
            (rowsFor_mem items uid k ex2).mpr ⟨hex2items, hex2uid, hex2id⟩
          rw [hrows] at this
          exact absurd this (List.not_mem_nil ex2)
      obtain ⟨rid, m, hfm, hmem⟩ := (hK k a hsome).2 hlastnone
      refine ⟨rid, m, hfm, ?_⟩
      have hmap : rowsFor (applyItemUpdates items upds) uid k = [] := by
        rw [applyItemUpdates_rowsFor, hrows]
        rfl
      rw [rowsFor_append, hmap, List.nil_append]
      unfold rowsFor
      apply filter_eq_singleton_of_itemID _ _ inss hD hmem (by simp)
      intro y hy
      rw [decide_eq_true_eq] at hy
      exact hy.2
  · -- other users
    intro u2 k hu2
    rw [rowsFor_append, applyItemUpdates_rowsFor,
      hinsnone u2 k (Or.inl hu2), List.append_nil]
    have hid : ∀ it ∈ rowsFor items u2 k, (fun it =>
        match upds.find? (fun u => u.id = it.id) with
        | some u => { it with amount := u.amount, updatedAt := u.updatedAt }
        | none => it) it = it := by
      intro it hit
      rw [rowsFor_mem] at hit
      have hf := hfindnone it hit.1 (Or.inl (by rw [hit.2.1]; exact hu2))
      simp only [hf]
    rw [List.map_congr_left hid]
    exact List.map_id _
  · -- uniqueness preserved
    rw [List.pairwise_append]
    refine ⟨?_, hD.imp (fun h => Or.inr h), ?_⟩
    · unfold applyItemUpdates
      rw [List.pairwise_map]
      apply huniq.imp
      intro a b hab
      rcases hfa : upds.find? (fun u => u.id = a.id) with _ | ua <;>
        rcases hfb : upds.find? (fun u => u.id = b.id) with _ | ub <;>
          simp only [hfa, hfb] <;> exact hab
    · intro x hx y hy
      rw [applyItemUpdates] at hx
      obtain ⟨it, hit, hgit⟩ := List.mem_map.mp hx
      obtain ⟨hyuid, hylast, a2, m, hyk, _, _⟩ := hI y hy
      have hxfields : x.userID = it.userID ∧ x.itemID = it.itemID := by
        rw [← hgit]
        rcases hf : upds.find? (fun u => u.id = it.id) with _ | u <;> simp [hf]
      by_cases h1 : x.userID = y.userID
      · by_cases h2 : x.itemID = y.itemID
        · exfalso
          have hituid : it.userID = uid := by rw [← hxfields.1, h1, hyuid]
          have hitk : it.itemID = y.itemID := by rw [← hxfields.2, h2]
          have hkmem : y.itemID ∈ mats.map (fun kv => kv.1) := by
            obtain ⟨kv, hkv, hk1, _⟩ := lookupMat_mem mats y.itemID a2 hyk
            exact List.mem_map.mpr ⟨kv, hkv, hk1⟩
          have hitex : it ∈ existing := by
            rw [hex, List.mem_filter]
            exact ⟨hit, by simp [hituid, hitk ▸ hkmem]⟩
          have := lastItemFor_isSome y.itemID existing ⟨it, hitex, hitk⟩
          rw [hylast] at this
          exact absurd this (by simp)
        · exact Or.inr h2
      · exact Or.inl h1

/-- Full effect of a successful `obtainItemsBatch` on the store: the
summed coin delta is applied to the user's balance row, the expanded
card rows are appended, and the material rows are merged per item id
exactly as the claims describe — other rows, other users and the other
tables are untouched, and per-(user, item) uniqueness is preserved. -/
theorem obtainItemsBatch_ok_spec (cache masters : List ItemMaster) (s : Store)
    (presents : List UserPresent) (uid t nid : Int) (s2 : Store)
    (hamt : ∀ p ∈ presents, 0 ≤ p.amount)
    (hids : s.items.Pairwise (fun a b => a.id ≠ b.id))
    (huniq : s.items.Pairwise (fun a b => a.userID ≠ b.userID ∨ a.itemID ≠ b.itemID))
    (hok : obtainItemsBatch cache masters s presents uid t nid = .ok s2) :
    s2.users = s.users.map (fun u =>
        if u.id = uid then { u with isuCoin := u.isuCoin + coinTotalOf presents } else u)
    ∧ (∃ nc nid2, expandCards cache masters uid t (cardItemsOf presents) nid = .ok (nc, nid2)
        ∧ s2.cards = s.cards ++ nc ∧ nc.length = cardCountOf presents)
    ∧ (∀ k, lookupMat (materialItemsOf presents) k = none →
        rowsFor s2.items uid k = rowsFor s.items uid k)
    ∧ (∀ k a, lookupMat (materialItemsOf presents) k = some a →
        (∀ ex, rowsFor s.items uid k = [ex] →
          rowsFor s2.items uid k = [{ ex with amount := ex.amount + a, updatedAt := t }])
        ∧ (rowsFor s.items uid k = [] →
          ∃ rid m, findMaterialMaster masters k = some m ∧
            rowsFor s2.items uid k = [⟨rid, uid, m.itemType, k, a, t, t, none⟩]))
    ∧ (∀ u2 k, u2 ≠ uid → rowsFor s2.items u2 k = rowsFor s.items u2 k)
    ∧ s2.items.Pairwise (fun a b => a.userID ≠ b.userID ∨ a.itemID ≠ b.itemID)
    ∧ s2.presents = s.presents ∧ s2.tokens = s.tokens := by
  simp only [obtainItemsBatch] at hok
  split at hok
  · exact absurd hok (by simp)
  · rename_i newCards nid1 hec
    split at hok
    · exact absurd hok (by simp)
    · rename_i upds inss nid2x hpm
      injection hok with hs2
      by_cases hc : 0 < coinTotalOf presents
      all_goals
        simp only [if_pos, if_neg, hc, if_true, if_false] at hs2 hpm hec
      all_goals
        subst hs2
      · -- coin total positive: the balance update fires
        dsimp only
        obtain ⟨hU, hI, hK, hD⟩ := processMaterials_ok_char masters _ uid t
          (materialItemsOf presents) nid1 upds inss nid2x
          (materialItemsOf_pairwise presents) hpm
        obtain ⟨h3, h4, h5, h6⟩ := items_after_materials_spec masters s.items _ upds inss
          (materialItemsOf presents) uid t hids huniq rfl hU hI hK hD
        exact ⟨rfl,
          ⟨newCards, nid1, hec, rfl, expandCards_length cache masters uid t _ nid newCards nid1 hec⟩,
          h3, h4, h5, h6, rfl, rfl⟩
      · -- coin total zero: no balance write, and the mapped update is the identity
        dsimp only
        have hc0 : coinTotalOf presents = 0 := by
          have := coinTotalOf_nonneg presents hamt
          omega
        have husers : s.users = s.users.map (fun u =>
            if u.id = uid then { u with isuCoin := u.isuCoin + coinTotalOf presents } else u) := by
          rw [hc0]
          have hpt : ∀ u ∈ s.users,
              (if u.id = uid then { u with isuCoin := u.isuCoin + (0 : Int) } else u) = u := by
            intro u _
            by_cases hu : u.id = uid
            · rw [if_pos hu]
              cases u
              simp
            · rw [if_neg hu]
          symm
          rw [List.map_congr_left hpt]
          exact List.map_id _
        obtain ⟨hU, hI, hK, hD⟩ := processMaterials_ok_char masters _ uid t
          (materialItemsOf presents) nid1 upds inss nid2x
          (materialItemsOf_pairwise presents) hpm
        obtain ⟨h3, h4, h5, h6⟩ := items_after_materials_spec masters s.items _ upds inss
          (materialItemsOf presents) uid t hids huniq rfl hU hI hK hD
        exact ⟨husers,
          ⟨newCards, nid1, hec, rfl, expandCards_length cache masters uid t _ nid newCards nid1 hec⟩,
          h3, h4, h5, h6, rfl, rfl⟩

/-- C1: a mixed batch granted through `obtainItemsBatch` inside one
shard transaction either fails — and the rolled-back transaction leaves
the store exactly as it was — or fully commits: the summed coin delta
is applied to the user's balance, every expanded card row is inserted
(one per unit of amount), every per-item material total is merged into
the user's amounts, and the other tables are untouched. -/
theorem obtainItemsBatch_atomic (cache masters : List ItemMaster) (s : Store)
    (presents : List UserPresent) (uid t nid : Int)
    (hamt : ∀ p ∈ presents, 0 ≤ p.amount)
    (hids : s.items.Pairwise (fun a b => a.id ≠ b.id))
    (huniq : s.items.Pairwise (fun a b => a.userID ≠ b.userID ∨ a.itemID ≠ b.itemID)) :
    (∃ e, obtainItemsBatch cache masters s presents uid t nid = .error e
        ∧ applyGrantTx cache masters s presents uid t nid = s)
    ∨ (∃ s2, obtainItemsBatch cache masters s presents uid t nid = .ok s2
        ∧ applyGrantTx cache masters s presents uid t nid = s2
        ∧ s2.users = s.users.map (fun u =>
            if u.id = uid then { u with isuCoin := u.isuCoin + coinTotalOf presents } else u)
        ∧ (∃ nc nid2, expandCards cache masters uid t (cardItemsOf presents) nid = .ok (nc, nid2)
            ∧ s2.cards = s.cards ++ nc ∧ nc.length = cardCountOf presents)
        ∧ (∀ k, itemsAmountFor s2.items uid k
            = itemsAmountFor s.items uid k + materialTotal presents k)
        ∧ s2.presents = s.presents ∧ s2.tokens = s.tokens) := by
  rcases hob : obtainItemsBatch cache masters s presents uid t nid with e | s2
  · left
    exact ⟨e, rfl, by unfold applyGrantTx; rw [hob]⟩
  · right
    obtain ⟨h1, h2, h3, h4, h5, h6, h7, h8⟩ :=
      obtainItemsBatch_ok_spec cache masters s presents uid t nid s2 hamt hids huniq hob
    refine ⟨s2, rfl, by unfold applyGrantTx; rw [hob], h1, h2, ?_, h7, h8⟩
    intro k
    rw [← lookupMatD_materialItemsOf presents k]
    rcases hl : lookupMat (materialItemsOf presents) k with _ | a
    · unfold itemsAmountFor
      rw [h3 k hl]
      simp [lookupMatD, hl]
    · have hla : lookupMatD (materialItemsOf presents) k = a := by simp [lookupMatD, hl]
      rw [hla]
      obtain ⟨hsome, hnone⟩ := h4 k a hl
      rcases rowsFor_unique uid k s.items huniq with hr | ⟨ex, hr⟩
      · obtain ⟨rid, m, _, hrs2⟩ := hnone hr
        unfold itemsAmountFor
        rw [hr, hrs2]
        simp
      · have hrs2 := hsome ex hr
        unfold itemsAmountFor
        rw [hr, hrs2]
        simp

/-- Witness for C1 on the mixed-batch fixture (coins, two cards,
material 7 twice). -/
theorem obtainItemsBatch_atomic_witness :
    (∃ e, obtainItemsBatch [] mastersC1 storeC1 presentsC1 1 10 1000 = .error e
        ∧ applyGrantTx [] mastersC1 storeC1 presentsC1 1 10 1000 = storeC1)
    ∨ (∃ s2, obtainItemsBatch [] mastersC1 storeC1 presentsC1 1 10 1000 = .ok s2
        ∧ applyGrantTx [] mastersC1 storeC1 presentsC1 1 10 1000 = s2
        ∧ s2.users = storeC1.users.map (fun u =>
            if u.id = 1 then { u with isuCoin := u.isuCoin + coinTotalOf presentsC1 } else u)
        ∧ (∃ nc nid2, expandCards [] mastersC1 1 10 (cardItemsOf presentsC1) 1000 = .ok (nc, nid2)
            ∧ s2.cards = storeC1.cards ++ nc ∧ nc.length = cardCountOf presentsC1)
        ∧ (∀ k, itemsAmountFor s2.items 1 k
            = itemsAmountFor storeC1.items 1 k + materialTotal presentsC1 k)
        ∧ s2.presents = storeC1.presents ∧ s2.tokens = storeC1.tokens) :=
  obtainItemsBatch_atomic [] mastersC1 storeC1 presentsC1 1 10 1000
    (by decide) (by decide) (by decide)

/-- C9: a successful batch grant keeps the store's per-(user, item id)
uniqueness of `UserItem` rows, and for every item id of the batch the
material amounts are aggregated into one per-item total (the spec-level
sum over the batch) that is merged into the single existing row — or
inserted as a single fresh row — never duplicated. -/
theorem obtainItemsBatch_material_merge (cache masters : List ItemMaster) (s : Store)
    (presents : List UserPresent) (uid t nid : Int) (s2 : Store)
    (hamt : ∀ p ∈ presents, 0 ≤ p.amount)
    (hids : s.items.Pairwise (fun a b => a.id ≠ b.id))
    (huniq : s.items.Pairwise (fun a b => a.userID ≠ b.userID ∨ a.itemID ≠ b.itemID))
    (hok : obtainItemsBatch cache masters s presents uid t nid = .ok s2) :
    s2.items.Pairwise (fun a b => a.userID ≠ b.userID ∨ a.itemID ≠ b.itemID)
    ∧ ∀ k a, lookupMat (materialItemsOf presents) k = some a →
        a = materialTotal presents k
        ∧ (∀ ex, rowsFor s.items uid k = [ex] →
            rowsFor s2.items uid k = [{ ex with amount := ex.amount + a, updatedAt := t }])
        ∧ (rowsFor s.items uid k = [] →
            ∃ rid m, findMaterialMaster masters k = some m ∧
              rowsFor s2.items uid k = [⟨rid, uid, m.itemType, k, a, t, t, none⟩]) := by
  obtain ⟨_, _, _, h4, _, h6, _, _⟩ :=
    obtainItemsBatch_ok_spec cache masters s presents uid t nid s2 hamt hids huniq hok
  refine ⟨h6, ?_⟩
  intro k a hl
  have hla : a = materialTotal presents k := by
    rw [← lookupMatD_materialItemsOf presents k]
    simp [lookupMatD, hl]
  obtain ⟨hsome, hnone⟩ := h4 k a hl
  exact ⟨hla, hsome, hnone⟩

/-- Witness for C9 on the mixed-batch fixture: material 7 granted 2+2
merges into the single existing row. -/
theorem obtainItemsBatch_material_merge_witness :
    (applyGrantTx [] mastersC1 storeC1 presentsC1 1 10 1000).items.Pairwise
        (fun a b => a.userID ≠ b.userID ∨ a.itemID ≠ b.itemID)
    ∧ ∀ k a, lookupMat (materialItemsOf presentsC1) k = some a →
        a = materialTotal presentsC1 k
        ∧ (∀ ex, rowsFor storeC1.items 1 k = [ex] →
            rowsFor (applyGrantTx [] mastersC1 storeC1 presentsC1 1 10 1000).items 1 k
              = [{ ex with amount := ex.amount + a, updatedAt := 10 }])
        ∧ (rowsFor storeC1.items 1 k = [] →
            ∃ rid m, findMaterialMaster mastersC1 k = some m ∧
              rowsFor (applyGrantTx [] mastersC1 storeC1 presentsC1 1 10 1000).items 1 k
                = [⟨rid, 1, m.itemType, k, a, 10, 10, none⟩]) :=
  obtainItemsBatch_material_merge [] mastersC1 storeC1 presentsC1 1 10 1000
    (applyGrantTx [] mastersC1 storeC1 presentsC1 1 10 1000)
    (by decide) (by decide) (by decide) rfl

end Isucon
